import Mathlib

/-!
# Verification development for `platform/generate` and `platform/pg`

Shallow embedding of the Go sources

* `platform/generate/generate.go` : `EncryptPassword`, `UUID`, `Salt`, `RandomBytes`,
  `RandomString`
* `platform/pg/pg.go` : `WrapError`, `IsNotUnique`, `IsRelationNotFound`, `ClausesToWhere`,
  `GuardIndex`

Conventions of the embedding

* A Go `int` is a Lean `Int` (or a `Nat` where the source value is a length).
* The bytes of a token are ASCII characters and are represented as `Char`; the zero byte
  written by `make` is `Char.ofNat 0`.
* The bytes handled by `UUID` and `Salt` are numbers, represented as `Nat` below 256.
* A `rand.Source` is the stream of the values its successive `Int63()` calls return.
* A Go `error` is an `Option`, `none` being `nil`; a function that can panic returns an
  `Except`.
* The library functions `io.ReadFull`, `fmt.Sprintf` and `strings.Join` are embedded as far
  as the sources use them.
-/

namespace Generate

/-! ## Constants of `generate.go` -/

/-- The constant `letterBytes`.  The two braces, the back-quote and the apostrophe of the Go
literal are written as the escapes x7b, x7d, x60 and x27. -/
def letterBytes : String :=
  "abcdefghijklmnopqrstuvwxyzABCDEFGHIJKLMNOPQRSTUVWXYZ~!$%^&*()_+\x7b\x7d:\"|<>?\x60-=[];\x27\\,./"

/-- The constant `letterIdxBits`: 6 bits to represent a letter index. -/
def letterIdxBits : Nat := 6

/-- The constant `letterIdxMask = 1<<letterIdxBits - 1`: all 1-bits, as many as
`letterIdxBits`. -/
def letterIdxMask : Nat := 1 <<< letterIdxBits - 1

/-- The constant `letterIdxMax = 63 / letterIdxBits`: number of letter indices fitting in 63
bits. -/
def letterIdxMax : Nat := 63 / letterIdxBits

/-- The constant `saltLen`. -/
def saltLen : Nat := 256

/-- The constant `scryptN`. -/
def scryptN : Nat := 32768

/-- The constant `scryptR`. -/
def scryptR : Nat := 8

/-- The constant `scryptP`. -/
def scryptP : Nat := 1

/-- The constant `scryptKeyLen`. -/
def scryptKeyLen : Nat := 256

/-! ## `RandomBytes` and `RandomString` -/

/-- A `rand.Source`, seen through `Int63()` only: `src k` is the value returned by call number
`k` (counting from 0).  `Int63` returns a non-negative 63-bit integer, so a `Nat`. -/
abbrev Source := Nat → Nat

/-- The ways in which a run of the loop can fail to return. -/
inductive Fault where
  /-- An index expression `b[i]` outside `0 ≤ i < len(b)`: a Go run-time panic. -/
  | indexOutOfRange
  /-- The iteration budget of the model is used up while the loop condition still holds. -/
  | outOfFuel
  deriving DecidableEq, Repr

deriving instance DecidableEq for Except

/-- The variables live in the loop of `RandomBytes`: the buffer `b`, the loop variables `i`,
`cache` and `remain`, and the number of `Int63()` calls made so far. -/
structure LoopState where
  b : List Char
  i : Int
  cache : Nat
  remain : Int
  calls : Nat
  deriving DecidableEq, Repr

/-- One execution of the body of the `for` loop of `RandomBytes`
(the loop condition `i >= 0` is checked by `RandomBytesLoop`). -/
def RandomBytesBody (src : Source) (s : LoopState) : Except Fault LoopState :=
  -- if remain == 0 { cache, remain = src.Int63(), letterIdxMax }
  let cache := if s.remain = 0 then src s.calls else s.cache
  let remain : Int := if s.remain = 0 then (letterIdxMax : Int) else s.remain
  let calls := if s.remain = 0 then s.calls + 1 else s.calls
  -- if idx := int(cache & letterIdxMask); idx < len(letterBytes) { b[i] = letterBytes[idx]; i-- }
  let idx := cache &&& letterIdxMask
  if h : idx < letterBytes.data.length then
    if 0 ≤ s.i ∧ s.i.toNat < s.b.length then
      -- cache >>= letterIdxBits; remain--
      .ok ⟨s.b.set s.i.toNat letterBytes.data[idx], s.i - 1, cache >>> letterIdxBits,
        remain - 1, calls⟩
    else
      .error .indexOutOfRange
  else
    .ok ⟨s.b, s.i, cache >>> letterIdxBits, remain - 1, calls⟩

/-- The `for` loop of `RandomBytes`: while `i >= 0`, run the body.  `fuel` bounds the number
of iterations of the model. -/
def RandomBytesLoop (src : Source) : Nat → LoopState → Except Fault LoopState
  | 0, s => if s.i < 0 then .ok s else .error .outOfFuel
  | fuel + 1, s =>
    if s.i < 0 then .ok s
    else
      match RandomBytesBody src s with
      | .ok s' => RandomBytesLoop src fuel s'
      | .error e => .error e

/-- The state in which the loop of `RandomBytes` is entered: `b := make([]byte, n)` and
`i, cache, remain := n-1, src.Int63(), letterIdxMax`. -/
def RandomBytesInit (src : Source) (n : Nat) : LoopState :=
  ⟨List.replicate n (Char.ofNat 0), (n : Int) - 1, src 0, letterIdxMax, 1⟩

/-- The function `RandomBytes(src, n)` for a length `n ≥ 0`, run with an iteration budget. -/
def RandomBytes (fuel : Nat) (src : Source) (n : Nat) : Except Fault (List Char) :=
  match RandomBytesLoop src fuel (RandomBytesInit src n) with
  | .ok s => .ok s.b
  | .error e => .error e

/-- The function `RandomString(n)`: `string(RandomBytes(rand.NewSource(seed), n))`, where
`src` is the source that `rand.NewSource(time.Now().UnixNano())` returns. -/
def RandomString (fuel : Nat) (src : Source) (n : Nat) : Except Fault String :=
  match RandomBytes fuel src n with
  | .ok b => .ok (String.mk b)
  | .error e => .error e

/-! ## Quantities used to describe the loop -/

/-- The value of `cache` used by an iteration entered in state `s`. -/
def cacheOf (src : Source) (s : LoopState) : Nat :=
  if s.remain = 0 then src s.calls else s.cache

/-- The character an iteration entered in state `s` writes. -/
def charOf (src : Source) (s : LoopState) : Char :=
  letterBytes.data.getD (cacheOf src s &&& letterIdxMask) (Char.ofNat 0)

/-- The number of 6-bit group values `v` in `0..63` for which the loop body accepts the
group and writes the character `c`: the one-byte run `RandomBytes(src, 1)` on a source whose
first draw has `v` as its low group returns `[c]`. -/
def selectionCount (c : Char) : Nat :=
  ((List.range 64).filter (fun v => decide (RandomBytes 1 (fun _ => v) 1 = .ok [c]))).length

/-- The punctuation and symbol characters: printable ASCII that is neither a letter nor a
digit nor the space. -/
def isSymbol (c : Char) : Bool :=
  decide (33 ≤ c.toNat) && decide (c.toNat ≤ 126) && !c.isAlphanum

/-- The character selected by 6-bit group number `k` of the stream of draws `d_0, d_1, ...`:
`letterBytes[(d_(k div 10) >> (6 * (k mod 10))) & 63]`. -/
def letterAt (src : Source) (k : Nat) : Char :=
  letterBytes.data.getD ((src (k / 10) >>> (6 * (k % 10))) &&& 63) (Char.ofNat 0)

/-- The closed form of the output of length `n`: position `n-1-k` holds the character
selected by group number `k`, that is, position `j` holds the one of group `n-1-j`. -/
def closedBytes (src : Source) (n : Nat) : List Char :=
  (List.range n).map (fun j => letterAt src (n - 1 - j))

/-- The number of calls of `src.Int63()` that `RandomBytes(src, n)` has made when it
returns. -/
def RandomBytesCalls (fuel : Nat) (src : Source) (n : Nat) : Except Fault Nat :=
  match RandomBytesLoop src fuel (RandomBytesInit src n) with
  | .ok s => .ok s.calls
  | .error e => .error e

/-- The number `max(1, ceil(n/10))`. -/
def drawsNeeded (n : Nat) : Nat := max 1 ((n + 9) / 10)

/-- The relation between the loop variables at the start of iteration number `k` (counting
from 0): `remain` lies in `0..10`, `10 * calls - remain = k`, and `cache` is the last draw
shifted right by the groups already used. -/
def LoopInv (src : Source) (k : Nat) (s : LoopState) : Prop :=
  ∃ r : Nat, s.remain = (r : Int) ∧ r ≤ 10 ∧ 1 ≤ s.calls ∧ k + r = 10 * s.calls ∧
    s.cache = src (s.calls - 1) >>> (6 * (10 - r)) ∧ (k = 0 ∨ r ≤ 9)

/-! ## The entropy source, `UUID` and `Salt` -/

/-- A non-nil Go `error` value of the entropy source, identified by its message. -/
structure Err where
  msg : String
  deriving DecidableEq, Repr

/-- What one read of `crand.Reader` through `io.ReadFull` yields: the bytes the source
delivers, in order, before it stops, and the error the read reports (`none` is `nil`). -/
structure Reader where
  bytes : List Nat
  err : Option Err
  deriving DecidableEq, Repr

/-- The call `io.ReadFull(crand.Reader, buf)`, also `crand.Read(buf)`: the delivered bytes
(each a `uint8`) overwrite the front of `buf`; returns the buffer, the number `n` of bytes
copied and the error. -/
def ReadFull (r : Reader) (buf : List Nat) : List Nat × Int × Option Err :=
  let got := (r.bytes.take buf.length).map (· % 256)
  (got ++ buf.drop got.length, (got.length : Int), r.err)

/-- The operator `x &^ m` on `uint8`: clear in `x` the bits set in `m`. -/
def andNot (x m : Nat) : Nat := x &&& (0xff ^^^ m)

/-- The digits `fmt` uses for the verb `%x`. -/
def ldigits : String := "0123456789abcdef"

/-- The verb `%x` applied to one byte: two lower-case hexadecimal digits,
`digits[c>>4]` then `digits[c&0xF]`. -/
def fmtByte (c : Nat) : List Char :=
  [ldigits.data.getD (c >>> 4) '?', ldigits.data.getD (c &&& 0xF) '?']

/-- The verb `%x` applied to a byte slice: every byte as two hexadecimal digits. -/
def fmtX (bs : List Nat) : List Char := bs.flatMap fmtByte

/-- The slice expression `s[lo:hi]`. -/
def slice (s : List Nat) (lo hi : Nat) : List Nat := (s.take hi).drop lo

/-- The two assignments of `UUID` that set the variant bits of byte 8 and the version bits
of byte 6. -/
def setVariantVersion (uuid : List Nat) : List Nat :=
  -- uuid[8] = uuid[8]&^0xc0 | 0x80
  let uuid := uuid.set 8 (andNot (uuid.getD 8 0) 0xc0 ||| 0x80)
  -- uuid[6] = uuid[6]&^0xf0 | 0x40
  uuid.set 6 (andNot (uuid.getD 6 0) 0xf0 ||| 0x40)

/-- The call `fmt.Sprintf("%x-%x-%x-%x-%x", uuid[0:4], uuid[4:6], uuid[6:8], uuid[8:10],
uuid[10:])`. -/
def render (uuid : List Nat) : String :=
  String.mk (fmtX (slice uuid 0 4) ++ ['-'] ++ fmtX (slice uuid 4 6) ++ ['-'] ++
    fmtX (slice uuid 6 8) ++ ['-'] ++ fmtX (slice uuid 8 10) ++ ['-'] ++
    fmtX (slice uuid 10 uuid.length))

/-- The function `UUID()`, given the outcome of its read of the entropy source. -/
def UUID (r : Reader) : String × Option Err :=
  let uuid := List.replicate 16 0
  let (uuid, n, err) := ReadFull r uuid
  if n ≠ (uuid.length : Int) ∨ err ≠ none then
    ("", err)
  else
    (render (setVariantVersion uuid), none)

/-- The values `n` and `err` of the statement `n, err := io.ReadFull(crand.Reader, uuid)` of
`UUID`. -/
def uuidRead (r : Reader) : Int × Option Err :=
  (ReadFull r (List.replicate 16 0)).2

/-- The function `Salt()`, given the outcome of its read of the entropy source. -/
def Salt (r : Reader) : List Nat × Option Err :=
  let salt := List.replicate saltLen 0
  let (salt, _, err) := ReadFull r salt
  (salt, err)

/-! ## The pattern of a version-4 UUID string -/

/-- A lower-case hexadecimal digit, `[0-9a-f]`. -/
def isLowerHex (c : Char) : Bool :=
  c.isDigit || (decide ('a'.toNat ≤ c.toNat) && decide (c.toNat ≤ 'f'.toNat))

/-- What the pattern
`[0-9a-f]{8}-[0-9a-f]{4}-4[0-9a-f]{3}-[89ab][0-9a-f]{3}-[0-9a-f]{12}` allows at index `i`. -/
def patternAt (i : Nat) (c : Char) : Bool :=
  if i = 8 ∨ i = 13 ∨ i = 18 ∨ i = 23 then c == '-'
  else if i = 14 then c == '4'
  else if i = 19 then c == '8' || c == '9' || c == 'a' || c == 'b'
  else isLowerHex c

/-- The string has 36 characters and every one of them is allowed by the pattern. -/
def matchesUUIDPattern (s : String) : Bool :=
  s.length == 36 && (List.range 36).all (fun i => patternAt i (s.data.getD i ' '))

/-! ## Decoding a UUID string -/

/-- The value of a lower-case hexadecimal digit. -/
def hexVal (c : Char) : Nat :=
  if c.isDigit then c.toNat - '0'.toNat else c.toNat - 'a'.toNat + 10

/-- Hex-decoding: every two digits give one byte, the high digit first. -/
def hexDecode : List Char → List Nat
  | hi :: lo :: rest => (16 * hexVal hi + hexVal lo) :: hexDecode rest
  | _ => []

/-- The string without its hyphens. -/
def removeHyphens (s : String) : List Char := s.data.filter (fun c => c != '-')

/-! ## `EncryptPassword` -/

/-- Modelled from the spec: the parameter check of the key-derivation function
`scrypt.Key` of `golang.org/x/crypto/scrypt`, a dependency whose code is not part of the
sources.  The parameters are valid when `N > 1` and `N` is a power of two, `r*p < 2^30`,
`r <= maxInt/128/p`, `r <= maxInt/256` and `N <= maxInt/128/r`, where `maxInt` is the
largest value of the platform `int`. -/
def scryptParamsValid (maxInt N r p : Nat) : Bool :=
  (decide (1 < N) && decide (N &&& (N - 1) = 0)) &&
  (decide (r * p < 2 ^ 30) && decide (r ≤ maxInt / 128 / p) && decide (r ≤ maxInt / 256) &&
    decide (N ≤ maxInt / 128 / r))

/-- Modelled from the spec: the key-derivation function `scrypt.Key(password, salt, N, r, p,
keyLen)` of `golang.org/x/crypto/scrypt`, a dependency whose code is not part of the sources.
It fails with an invalid-parameter error when it rejects the parameter combination, and
otherwise returns a derived key of `keyLen` bytes that is a function of the password, the
salt and the parameters: byte `i` of the key is `derive password salt N r p i`. -/
def scryptKey (maxInt : Nat)
    (derive : List Nat → List Nat → Nat → Nat → Nat → Nat → Nat)
    (password salt : List Nat) (N r p keyLen : Nat) : List Nat × Option Err :=
  if scryptParamsValid maxInt N r p then
    ((List.range keyLen).map (fun i => derive password salt N r p i % 256), none)
  else
    ([], some ⟨"scrypt: invalid parameters"⟩)

/-- The function `EncryptPassword(pw, salt)`. -/
def EncryptPassword (maxInt : Nat)
    (derive : List Nat → List Nat → Nat → Nat → Nat → Nat → Nat)
    (pw salt : List Nat) : List Nat × Option Err :=
  scryptKey maxInt derive pw salt scryptN scryptR scryptP scryptKeyLen

end Generate

namespace Pg

/-! ## Constants, error values and functions of `pg.go` -/

/-- The constant `codeDuplicateKeyViolation`. -/
def codeDuplicateKeyViolation : String := "23505"

/-- The constant `codeRelationNotFound`. -/
def codeRelationNotFound : String := "42P01"

/-- The non-nil values of the Go interface `error` that `pg.go` tells apart: a `*pq.Error`
that points to a struct, with its field `Code` (the other fields of the struct are
`detail`); a `*pq.Error` that is the nil pointer (the interface holding it is not nil); the
two sentinel variables of the package; and any other error. -/
inductive GoError where
  /-- A non-nil `*pq.Error`. -/
  | pqError (code : String) (detail : String)
  /-- The nil pointer of type `*pq.Error`, stored in the interface. -/
  | nilPqError
  /-- The variable `ErrRelationNotFound = errors.New("relation not found")`. -/
  | relationNotFound
  /-- The variable `ErrNotUnique = errors.New("entity not unique")`. -/
  | notUnique
  /-- An error of any other dynamic type. -/
  | other (msg : String)
  deriving DecidableEq, Repr

/-- The run-time panics of `pg.go`. -/
inductive Panic where
  /-- A field read through a nil pointer: invalid memory address or nil pointer
  dereference. -/
  | nilDereference
  deriving DecidableEq, Repr

/-- The variable `ErrRelationNotFound`. -/
def ErrRelationNotFound : Option GoError := some .relationNotFound

/-- The variable `ErrNotUnique`. -/
def ErrNotUnique : Option GoError := some .notUnique

/-- The function `IsNotUnique(err)`. -/
def IsNotUnique (err : Option GoError) : Bool := decide (err = ErrNotUnique)

/-- The function `IsRelationNotFound(err)`. -/
def IsRelationNotFound (err : Option GoError) : Bool := decide (err = ErrRelationNotFound)

/-- The function `WrapError(err)`: the type assertion `err.(*pq.Error)` succeeds for every
`*pq.Error`, the nil pointer included; the `switch` then reads `err.Code`, which panics on
the nil pointer; every path that returns without a matching `case` returns the original
error. -/
def WrapError (err : Option GoError) : Except Panic (Option GoError) :=
  match err with
  | some .nilPqError => .error .nilDereference
  | some (.pqError code _) =>
    if code = codeDuplicateKeyViolation then .ok ErrNotUnique
    else if code = codeRelationNotFound then .ok ErrRelationNotFound
    else .ok err
  | _ => .ok err

/-- The statement of the claim on `WrapError` at the error value `e`: the call returns, with
`ErrNotUnique` for a Postgres error of code `23505`, with `ErrRelationNotFound` for one of
code `42P01`, and with `e` itself in every other case. -/
def wrapsAsClaimed (e : Option GoError) : Prop :=
  (∀ detail, e = some (.pqError "23505" detail) → WrapError e = .ok ErrNotUnique) ∧
  (∀ detail, e = some (.pqError "42P01" detail) → WrapError e = .ok ErrRelationNotFound) ∧
  ((¬ ∃ detail, e = some (.pqError "23505" detail)) →
    (¬ ∃ detail, e = some (.pqError "42P01" detail)) → WrapError e = .ok e)

/-- The statement of idempotence at the error value `e`: `WrapError(e)` returns an error
`e1`, `WrapError(e1)` returns `e1` again, and `IsNotUnique(e1)` holds exactly when `e` is a
Postgres error of code `23505` or `ErrNotUnique` itself. -/
def idempotentAt (e : Option GoError) : Prop :=
  ∃ e1, WrapError e = .ok e1 ∧ WrapError e1 = .ok e1 ∧
    (IsNotUnique e1 = true ↔
      (∃ detail, e = some (.pqError "23505" detail)) ∨ e = ErrNotUnique)

/-! ## The string builders of `pg.go` -/

/-- The constant `fmtClause`. -/
def fmtClause : String := "\nAND "

/-- The constant `fmtWHERE`. -/
def fmtWHERE : String := "WHERE\n%s"

/-- The constant `guardIndex`, a raw string literal over eight lines; the apostrophes around
the first two verbs are written as the escape x27. -/
def guardIndex : String :=
  "DO $$\n\t\tBEGIN\n\t\tIF NOT EXISTS (\n\t\t\tSELECT 1 FROM pg_indexes WHERE schemaname = \x27%s\x27 AND indexname = \x27%s\x27\n\t\t) THEN\n\t\t%s;\n\t\tEND IF;\n\t\tEND$$;"

/-- The function `strings.Join(elems, sep)`: the empty string for no element, the element
itself for one, and otherwise the first element followed by `sep` and the next element, for
every further element. -/
def Join : List String → String → String
  | [], _ => ""
  | [e], _ => e
  | e :: rest, sep => rest.foldl (fun acc s => acc ++ sep ++ s) e

/-- What `fmt.Sprintf` appends for operands that no verb has used: nothing when there is
none, and otherwise the `EXTRA` note listing each operand with its type `string`. -/
def extraArgs : List String → List Char
  | [] => []
  | args => "%!(EXTRA ".data ++ (String.intercalate ", " (args.map ("string=" ++ ·))).data ++
      [')']

/-- The scanning loop of `fmt.Sprintf` for string operands.  `afterPercent` tells whether the
character before was the `%` that starts a verb.  Literal text is copied; the verb `%s`
writes the next operand, or the `MISSING` note when there is none; `%%` writes a percent
sign; a `%` at the end of the format writes the `NOVERB` note.  Flags, widths and other verbs
are outside the fragment of `fmt` embedded here (`none`). -/
def SprintfAux : Bool → List Char → List String → Option (List Char)
  | false, [], args => some (extraArgs args)
  | true, [], args => some ("%!(NOVERB)".data ++ extraArgs args)
  | false, c :: rest, args =>
    if c = '%' then SprintfAux true rest args
    else (SprintfAux false rest args).map (fun out => c :: out)
  | true, c :: rest, args =>
    if c = 's' then
      match args with
      | a :: args' => (SprintfAux false rest args').map (fun out => a.data ++ out)
      | [] => (SprintfAux false rest []).map (fun out => "%!s(MISSING)".data ++ out)
    else if c = '%' then (SprintfAux false rest args).map (fun out => '%' :: out)
    else none

/-- The function `fmt.Sprintf(format, args...)` for string operands. -/
def Sprintf (format : String) (args : List String) : Option String :=
  (SprintfAux false format.data args).map String.mk

/-- The function `ClausesToWhere(clauses...)`. -/
def ClausesToWhere (clauses : List String) : Option String :=
  Sprintf fmtWHERE [Join clauses fmtClause]

/-- The function `GuardIndex(namespace, index, query, args...)`; the parameter `namespace`
is called `ns` here. -/
def GuardIndex (ns index query : String) (args : List String) : Option String :=
  -- as := []interface{}{index, namespace}; as = append(as, args...)
  let as := [index, ns] ++ args
  match Sprintf query as with
  | some guarded => Sprintf guardIndex [ns, index, guarded]
  | none => none

/-- The text of `guardIndex` before its first verb. -/
def guardHead : String :=
  "DO $$\n\t\tBEGIN\n\t\tIF NOT EXISTS (\n\t\t\tSELECT 1 FROM pg_indexes WHERE schemaname = \x27"

/-- The text of `guardIndex` between its first and its second verb. -/
def guardMid : String := "\x27 AND indexname = \x27"

/-- The text of `guardIndex` between its second and its third verb. -/
def guardThen : String := "\x27\n\t\t) THEN\n\t\t"

/-- The text of `guardIndex` after its third verb. -/
def guardTail : String := ";\n\t\tEND IF;\n\t\tEND$$;"

/-- The clauses joined with the separator, in their given order:
`c_1 sep c_2 sep ... sep c_k`. -/
def joined (sep : String) : List String → String
  | [] => ""
  | [c] => c
  | c :: d :: rest => c ++ sep ++ joined sep (d :: rest)

end Pg

namespace Generate

/-! ## Lemmas on the loop of `RandomBytes` -/

theorem letterIdxMask_eq : letterIdxMask = 63 := by decide

theorem letterBytes_length : letterBytes.data.length = 82 := by decide

/-- A 6-bit group is always a valid index into `letterBytes`. -/
theorem idx_lt_length (cache : Nat) : cache &&& letterIdxMask < letterBytes.data.length := by
  have h : cache &&& letterIdxMask ≤ letterIdxMask := Nat.and_le_right
  rw [letterBytes_length]
  rw [letterIdxMask_eq] at h ⊢
  omega

/-- With `i` inside the buffer, the body returns, writes `b[i]` and decrements `i`. -/
theorem RandomBytesBody_ok (src : Source) (s : LoopState) (h0 : 0 ≤ s.i)
    (h1 : s.i.toNat < s.b.length) :
    RandomBytesBody src s = .ok
      ⟨s.b.set s.i.toNat (charOf src s), s.i - 1, cacheOf src s >>> letterIdxBits,
        (if s.remain = 0 then (letterIdxMax : Int) else s.remain) - 1,
        if s.remain = 0 then s.calls + 1 else s.calls⟩ := by
  have hidx := idx_lt_length (cacheOf src s)
  unfold RandomBytesBody
  simp only [charOf, cacheOf] at hidx ⊢
  rw [dif_pos hidx, if_pos ⟨h0, h1⟩]
  simp only [List.getD_eq_getElem?_getD, List.getElem?_eq_getElem hidx, Option.getD_some]

theorem charOf_mem (src : Source) (s : LoopState) : charOf src s ∈ letterBytes.data := by
  have hidx := idx_lt_length (cacheOf src s)
  unfold charOf
  rw [List.getD_eq_getElem _ _ hidx]
  exact List.getElem_mem _

/-- Run of the loop from a state whose `i` lies in `-1 ≤ i < len(b)`: with a budget of at
least `i + 1` iterations the loop returns, the buffer keeps its length, the positions above
`i` are untouched and the positions up to `i` hold characters of `letterBytes`. -/
theorem RandomBytesLoop_spec (src : Source) (fuel : Nat) :
    ∀ s : LoopState, -1 ≤ s.i → s.i < s.b.length → s.i + 1 ≤ fuel →
      ∃ s', RandomBytesLoop src fuel s = .ok s' ∧ s'.i = -1 ∧ s'.b.length = s.b.length ∧
        (∀ j : Nat, s.i < j → s'.b.getD j (Char.ofNat 0) = s.b.getD j (Char.ofNat 0)) ∧
        (∀ j : Nat, (j : Int) ≤ s.i → s'.b.getD j (Char.ofNat 0) ∈ letterBytes.data) := by
  induction fuel with
  | zero =>
    intro s hlo _ hf
    have hi : s.i = -1 := by omega
    refine ⟨s, ?_, hi, rfl, fun _ _ => rfl, ?_⟩
    · simp [RandomBytesLoop, hi]
    · intro j hj; omega
  | succ fuel ih =>
    intro s hlo hhi hf
    by_cases hneg : s.i < 0
    · have hi : s.i = -1 := by omega
      refine ⟨s, ?_, hi, rfl, fun _ _ => rfl, ?_⟩
      · simp [RandomBytesLoop, hi]
      · intro j hj; omega
    · have h0 : 0 ≤ s.i := by omega
      have h1 : s.i.toNat < s.b.length := by omega
      have hbody := RandomBytesBody_ok src s h0 h1
      obtain ⟨s', hs', hi', hlen', hkeep, hmem⟩ := ih
        ⟨s.b.set s.i.toNat (charOf src s), s.i - 1, cacheOf src s >>> letterIdxBits,
          (if s.remain = 0 then (letterIdxMax : Int) else s.remain) - 1,
          if s.remain = 0 then s.calls + 1 else s.calls⟩
        (show (-1 : Int) ≤ s.i - 1 by omega)
        (show s.i - 1 < ((s.b.set s.i.toNat (charOf src s)).length : Int) by
          simp only [List.length_set]; omega)
        (show s.i - 1 + 1 ≤ (fuel : Int) by push_cast at hf; omega)
      refine ⟨s', ?_, hi', ?_, ?_, ?_⟩
      · rw [RandomBytesLoop, if_neg hneg, hbody]
        exact hs'
      · simpa using hlen'
      · intro j hj
        rw [hkeep j (by show s.i - 1 < (j : Int); omega)]
        have hne : s.i.toNat ≠ j := by omega
        simp [List.getD_eq_getElem?_getD, List.getElem?_set, hne]
      · intro j hj
        by_cases hjeq : (j : Int) = s.i
        · rw [hkeep j (by show s.i - 1 < (j : Int); omega)]
          have he : s.i.toNat = j := by omega
          have hjl : j < s.b.length := by omega
          simp [List.getD_eq_getElem?_getD, List.getElem?_set, he, hjl, charOf_mem]
        · exact hmem j (by show (j : Int) ≤ s.i - 1; omega)

/-- With a budget of at least `n` iterations `RandomBytes` returns a buffer of length `n`
all of whose positions hold characters of `letterBytes`. -/
theorem RandomBytes_run (src : Source) (n fuel : Nat) (hf : n ≤ fuel) :
    ∃ b, RandomBytes fuel src n = .ok b ∧ b.length = n ∧
      ∀ j : Nat, j < n → b.getD j (Char.ofNat 0) ∈ letterBytes.data := by
  obtain ⟨s', hs', _, hlen, _, hmem⟩ := RandomBytesLoop_spec src fuel (RandomBytesInit src n)
    (by simp [RandomBytesInit]) (by simp [RandomBytesInit])
    (by simp only [RandomBytesInit]; omega)
  refine ⟨s'.b, ?_, ?_, ?_⟩
  · simp [RandomBytes, hs']
  · simpa [RandomBytesInit] using hlen
  · intro j hj
    exact hmem j (by simp only [RandomBytesInit]; omega)

/-! ## The closed form of the loop of `RandomBytes` -/

theorem RandomBytesInit_inv (src : Source) (n : Nat) : LoopInv src 0 (RandomBytesInit src n) :=
  ⟨10, rfl, le_refl _, le_refl _, rfl, rfl, Or.inl rfl⟩

/-- In iteration number `k` the body writes the character of group number `k`. -/
theorem charOf_eq_letterAt (src : Source) (k : Nat) (s : LoopState) (h : LoopInv src k s) :
    charOf src s = letterAt src k := by
  obtain ⟨r, hr, hr10, hc, hk, hcache, _⟩ := h
  unfold charOf cacheOf letterAt
  rw [letterIdxMask_eq]
  by_cases h0 : r = 0
  · subst h0
    have h1 : k / 10 = s.calls := by omega
    have h2 : k % 10 = 0 := by omega
    rw [if_pos (by simpa using hr), h1, h2]
    rfl
  · have h1 : k / 10 = s.calls - 1 := by omega
    have h2 : k % 10 = 10 - r := by omega
    rw [if_neg (by rw [hr]; exact_mod_cast h0), h1, h2, hcache]

/-- One iteration carries the relation of iteration `k` to the one of iteration `k + 1`. -/
theorem RandomBytesBody_inv (src : Source) (k : Nat) (s : LoopState) (h : LoopInv src k s)
    (h0 : 0 ≤ s.i) (h1 : s.i.toNat < s.b.length) :
    ∃ s1, RandomBytesBody src s = .ok s1 ∧ s1.b = s.b.set s.i.toNat (letterAt src k) ∧
      s1.i = s.i - 1 ∧ LoopInv src (k + 1) s1 := by
  refine ⟨_, RandomBytesBody_ok src s h0 h1, ?_, rfl, ?_⟩
  · rw [charOf_eq_letterAt src k s h]
  · obtain ⟨r, hr, hr10, hc, hk, hcache, _⟩ := h
    by_cases hz : r = 0
    · subst hz
      have hrem : s.remain = 0 := by simpa using hr
      refine ⟨9, ?_, by omega, ?_, ?_, ?_, Or.inr (le_refl _)⟩
      · simp [hrem, letterIdxMax, letterIdxBits]
      · simp [hrem]
      · simp only [hrem, if_true]; omega
      · simp only [hrem, if_true, cacheOf, letterIdxBits]
        rfl
    · have hrem : s.remain ≠ 0 := by rw [hr]; exact_mod_cast hz
      refine ⟨r - 1, ?_, by omega, ?_, ?_, ?_, Or.inr (by omega)⟩
      · simp only [hrem, if_false, hr]; omega
      · simpa [hrem] using hc
      · simp only [hrem, if_false]; omega
      · simp only [hrem, if_false, cacheOf, letterIdxBits, hcache]
        rw [← Nat.shiftRight_add]
        congr 1
        omega

/-- Run of the loop from the start of iteration `k`: with a budget of at least `i + 1`
iterations it returns after exactly `i + 1` iterations, the positions above `i` are untouched
and position `j ≤ i` holds the character of group `k + (i - j)`. -/
theorem RandomBytesLoop_closed (src : Source) (fuel : Nat) :
    ∀ (k : Nat) (s : LoopState), LoopInv src k s → -1 ≤ s.i → s.i < s.b.length →
      s.i + 1 ≤ fuel →
      ∃ s', RandomBytesLoop src fuel s = .ok s' ∧ s'.i = -1 ∧ s'.b.length = s.b.length ∧
        (∀ j : Nat, s.i < j → s'.b.getD j (Char.ofNat 0) = s.b.getD j (Char.ofNat 0)) ∧
        (∀ j : Nat, (j : Int) ≤ s.i →
          s'.b.getD j (Char.ofNat 0) = letterAt src (k + (s.i - j).toNat)) ∧
        LoopInv src (k + (s.i + 1).toNat) s' := by
  induction fuel with
  | zero =>
    intro k s hinv hlo _ hf
    have hi : s.i = -1 := by omega
    refine ⟨s, ?_, hi, rfl, fun _ _ => rfl, ?_, ?_⟩
    · simp [RandomBytesLoop, hi]
    · intro j hj; omega
    · simpa [hi] using hinv
  | succ fuel ih =>
    intro k s hinv hlo hhi hf
    by_cases hneg : s.i < 0
    · have hi : s.i = -1 := by omega
      refine ⟨s, ?_, hi, rfl, fun _ _ => rfl, ?_, ?_⟩
      · simp [RandomBytesLoop, hi]
      · intro j hj; omega
      · simpa [hi] using hinv
    · have h0 : 0 ≤ s.i := by omega
      have h1 : s.i.toNat < s.b.length := by omega
      obtain ⟨s1, hbody, hb1, hi1, hinv1⟩ := RandomBytesBody_inv src k s hinv h0 h1
      have hlen1 : s1.b.length = s.b.length := by rw [hb1, List.length_set]
      obtain ⟨s', hs', hi', hlen', hkeep, hval, hinv'⟩ := ih (k + 1) s1 hinv1
        (by rw [hi1]; omega) (by rw [hi1, hlen1]; omega) (by rw [hi1]; push_cast at hf; omega)
      refine ⟨s', ?_, hi', by rw [hlen', hlen1], ?_, ?_, ?_⟩
      · rw [RandomBytesLoop, if_neg hneg, hbody]
        exact hs'
      · intro j hj
        rw [hkeep j (by rw [hi1]; omega), hb1]
        have hne : s.i.toNat ≠ j := by omega
        simp [List.getD_eq_getElem?_getD, List.getElem?_set, hne]
      · intro j hj
        by_cases hjeq : (j : Int) = s.i
        · rw [hkeep j (by rw [hi1]; omega), hb1]
          have he : s.i.toNat = j := by omega
          have hjl : j < s.b.length := by omega
          have hk : k + (s.i - (j : Int)).toNat = k := by omega
          simp [List.getD_eq_getElem?_getD, List.getElem?_set, he, hjl, hk]
        · rw [hval j (by rw [hi1]; omega), hi1]
          congr 1
          omega
      · have hk : k + 1 + (s1.i + 1).toNat = k + (s.i + 1).toNat := by rw [hi1]; omega
        rw [← hk]
        exact hinv'

/-- With a budget of at least `n` iterations the loop of `RandomBytes` ends in a state whose
buffer is the closed form and whose number of draws is `max(1, ceil(n/10))`. -/
theorem RandomBytesLoop_init (src : Source) (n fuel : Nat) (hf : n ≤ fuel) :
    ∃ s', RandomBytesLoop src fuel (RandomBytesInit src n) = .ok s' ∧
      s'.b = closedBytes src n ∧ s'.calls = drawsNeeded n := by
  obtain ⟨s', hs', _, hlen, _, hval, hinv⟩ :=
    RandomBytesLoop_closed src fuel 0 (RandomBytesInit src n) (RandomBytesInit_inv src n)
      (by simp [RandomBytesInit]) (by simp [RandomBytesInit])
      (by simp only [RandomBytesInit]; omega)
  have hlen' : s'.b.length = n := by simpa [RandomBytesInit] using hlen
  refine ⟨s', hs', ?_, ?_⟩
  · apply List.ext_getElem
    · simp [closedBytes, hlen']
    · intro j h1 h2
      have hj : j < n := by omega
      have h := hval j (by simp only [RandomBytesInit]; omega)
      rw [List.getD_eq_getElem _ _ h1] at h
      rw [h]
      simp only [closedBytes, List.getElem_map, List.getElem_range, RandomBytesInit]
      congr 1
      omega
  · obtain ⟨r, _, hr10, hc, hk, _, h9⟩ := hinv
    have hn : 0 + ((RandomBytesInit src n).i + 1).toNat = n := by
      simp only [RandomBytesInit]; omega
    rw [hn] at hk h9
    unfold drawsNeeded
    rw [Nat.max_def]
    split <;> omega

/-- The closed form of `RandomBytes`. -/
theorem RandomBytes_eq_closedBytes (src : Source) (n fuel : Nat) (hf : n ≤ fuel) :
    RandomBytes fuel src n = .ok (closedBytes src n) := by
  obtain ⟨s', hs', hb, _⟩ := RandomBytesLoop_init src n fuel hf
  simp [RandomBytes, hs', hb]

/-- With a budget below `i + 1` iterations the loop runs out of budget: it needs every one of
its `i + 1` iterations. -/
theorem RandomBytesLoop_outOfFuel (src : Source) (fuel : Nat) :
    ∀ s : LoopState, s.i < s.b.length → (fuel : Int) < s.i + 1 →
      RandomBytesLoop src fuel s = .error .outOfFuel := by
  induction fuel with
  | zero =>
    intro s _ hf
    have hneg : ¬ s.i < 0 := by omega
    simp [RandomBytesLoop, hneg]
  | succ fuel ih =>
    intro s hhi hf
    have hneg : ¬ s.i < 0 := by omega
    have h0 : 0 ≤ s.i := by omega
    have h1 : s.i.toNat < s.b.length := by omega
    rw [RandomBytesLoop, if_neg hneg, RandomBytesBody_ok src s h0 h1]
    apply ih
    · simp only [List.length_set]; omega
    · show (fuel : Int) < s.i - 1 + 1
      push_cast at hf
      omega

theorem closedBytes_length (src : Source) (n : Nat) : (closedBytes src n).length = n := by
  simp [closedBytes]

theorem closedBytes_getElem? (src : Source) (n k : Nat) (hk : k < n) :
    (closedBytes src n)[n - 1 - k]? = some (letterAt src k) := by
  have h : n - 1 - k < (closedBytes src n).length := by rw [closedBytes_length]; omega
  rw [List.getElem?_eq_getElem h]
  simp only [closedBytes, List.getElem_map, List.getElem_range]
  congr 2
  omega

/-- The group index `(d >> s) & 63` is below 64. -/
theorem group_lt (d s : Nat) : (d >>> s) &&& 63 < 64 := by
  have h : (d >>> s) &&& 63 ≤ 63 := Nat.and_le_right
  omega

theorem letterAt_eq_getElem? (src : Source) (k : Nat) :
    letterBytes.data[(src (k / 10) >>> (6 * (k % 10))) &&& 63]? = some (letterAt src k) := by
  have h : (src (k / 10) >>> (6 * (k % 10))) &&& 63 < letterBytes.data.length := by
    have := group_lt (src (k / 10)) (6 * (k % 10))
    rw [letterBytes_length]
    omega
  rw [List.getElem?_eq_getElem h]
  simp [letterAt, List.getD_eq_getElem?_getD, List.getElem?_eq_getElem h]

theorem closedBytes_getElem?_pos (src : Source) (n j : Nat) :
    (closedBytes src n)[j]? = if j < n then some (letterAt src (n - 1 - j)) else none := by
  by_cases h : j < n
  · simp [closedBytes, h, List.getElem?_range]
  · simp only [closedBytes, if_neg h]
    apply List.getElem?_eq_none
    simp only [List.length_map, List.length_range]
    omega

/-- The closed form of length `n` is the tail of the closed form of any greater length. -/
theorem closedBytes_drop (src : Source) (n m : Nat) (hnm : n ≤ m) :
    closedBytes src n = (closedBytes src m).drop (m - n) := by
  apply List.ext_getElem?
  intro j
  rw [List.getElem?_drop, closedBytes_getElem?_pos, closedBytes_getElem?_pos]
  by_cases h : j < n
  · have h' : m - n + j < m := by omega
    rw [if_pos h, if_pos h']
    congr 2
    omega
  · have h' : ¬ m - n + j < m := by omega
    rw [if_neg h, if_neg h']

/-- Every group selects one of the first 64 characters of `letterBytes`. -/
theorem letterAt_mem_take (src : Source) (k : Nat) :
    letterAt src k ∈ letterBytes.data.take 64 := by
  have h : ∀ i, i < 64 → letterBytes.data.getD i (Char.ofNat 0) ∈ letterBytes.data.take 64 := by
    decide
  exact h _ (group_lt _ _)

/-- The first 64 characters of `letterBytes` and its last 18 have no character in common. -/
theorem take_drop_disjoint :
    ∀ c, c ∈ letterBytes.data.take 64 → c ∉ letterBytes.data.drop 64 := by
  decide

/-- Whenever the body returns, it has consumed the group: `i` is decremented. -/
theorem RandomBytesBody_consumes (src : Source) (s s' : LoopState)
    (h : RandomBytesBody src s = .ok s') : s'.i = s.i - 1 := by
  have hidx := idx_lt_length (cacheOf src s)
  unfold RandomBytesBody at h
  simp only [cacheOf] at hidx
  simp only [dif_pos hidx] at h
  split at h
  · injection h with h
    rw [← h]
  · cases h

/-! ## Claims on `RandomBytes`, `RandomString` and `letterBytes` -/

/-- C1: for every source and every length `n ≥ 0`, `RandomBytes(src, n)` returns (given an
iteration budget of at least `n`) a byte sequence of length exactly `n`, and so does
`RandomString`; for `n = 0` the result is the empty sequence, and `RandomString(0)` is the
empty string, whatever the budget. -/
theorem RandomBytes_length (src : Source) (n fuel : Nat) (hf : n ≤ fuel) :
    (∃ b, RandomBytes fuel src n = .ok b ∧ b.length = n) ∧
    (∃ t, RandomString fuel src n = .ok t ∧ t.length = n) ∧
    RandomBytes 0 src 0 = .ok [] ∧ RandomBytes fuel src 0 = .ok [] ∧
    RandomString 0 src 0 = .ok "" ∧ RandomString fuel src 0 = .ok "" := by
  obtain ⟨b, hb, hlen, _⟩ := RandomBytes_run src n fuel hf
  obtain ⟨b0, hb0, hlen0, _⟩ := RandomBytes_run src 0 fuel (Nat.zero_le _)
  have hnil : b0 = [] := List.length_eq_zero.mp hlen0
  subst hnil
  have h00 : RandomBytes 0 src 0 = .ok [] := by
    simp [RandomBytes, RandomBytesLoop, RandomBytesInit]
  refine ⟨⟨b, hb, hlen⟩, ⟨String.mk b, ?_, ?_⟩, h00, hb0, ?_, ?_⟩
  · simp [RandomString, hb]
  · simpa [String.length] using hlen
  · simp only [RandomString, h00]
  · simp only [RandomString, hb0]

/-- Length claim at a concrete input: a source that returns `193` on every call, length
3. -/
theorem RandomBytes_length_witness :
    3 ≤ 3 ∧ RandomBytes 3 (fun _ => 193) 3 = .ok ['a', 'd', 'b'] ∧
    ((∃ b, RandomBytes 3 (fun _ => 193) 3 = .ok b ∧ b.length = 3) ∧
    (∃ t, RandomString 3 (fun _ => 193) 3 = .ok t ∧ t.length = 3) ∧
    RandomBytes 0 (fun _ => 193) 0 = .ok [] ∧ RandomBytes 3 (fun _ => 193) 0 = .ok [] ∧
    RandomString 0 (fun _ => 193) 0 = .ok "" ∧ RandomString 3 (fun _ => 193) 0 = .ok "") :=
  ⟨by decide, by decide, RandomBytes_length (fun _ => 193) 3 3 (by decide)⟩

/-- C2: for every source, every length `n` and every position `i < n`, the byte
`RandomBytes(src, n)[i]` is one of the characters of `letterBytes`; in particular it is not
the zero byte that `make` wrote. -/
theorem RandomBytes_alphabet (src : Source) (n fuel : Nat) (hf : n ≤ fuel) :
    ∃ b, RandomBytes fuel src n = .ok b ∧ b.length = n ∧
      ∀ (i : Nat) (hi : i < b.length),
        b[i] ∈ letterBytes.data ∧ b[i] ≠ Char.ofNat 0 := by
  obtain ⟨b, hb, hlen, hmem⟩ := RandomBytes_run src n fuel hf
  refine ⟨b, hb, hlen, ?_⟩
  intro i hi
  have h := hmem i (hlen ▸ hi)
  rw [List.getD_eq_getElem _ _ hi] at h
  refine ⟨h, ?_⟩
  intro h0
  rw [h0] at h
  revert h
  decide

/-- Alphabet claim at a concrete input: the source `k ↦ 4095 + k`, length 11 (two
draws). -/
theorem RandomBytes_alphabet_witness :
    11 ≤ 11 ∧
    RandomBytes 11 (fun k => 4095 + k) 11 =
      .ok ['a', 'a', 'a', 'a', 'a', 'a', 'a', 'a', 'a', '\x7b', '\x7b'] ∧
    ∃ b, RandomBytes 11 (fun k => 4095 + k) 11 = .ok b ∧ b.length = 11 ∧
      ∀ (i : Nat) (hi : i < b.length),
        b[i] ∈ letterBytes.data ∧ b[i] ≠ Char.ofNat 0 :=
  ⟨by decide, by decide, RandomBytes_alphabet (fun k => 4095 + k) 11 11 (by decide)⟩

/-- C3, evaluation of the code: the closing brace is a character of `letterBytes` (index 64)
but no 6-bit group selects it, while the letter a is selected by exactly one group.  Each of
the first 64 characters of `letterBytes` is selected by exactly one 6-bit group and each of
the last 18 by none, so the selection counts of the characters of `letterBytes` are not all
equal, and not all at least 1. -/
theorem selectionCount_not_uniform :
    '\x7d' ∈ letterBytes.data ∧ letterBytes.data[64]? = some '\x7d' ∧
    'a' ∈ letterBytes.data ∧
    selectionCount '\x7d' = 0 ∧ selectionCount 'a' = 1 ∧
    (∀ c ∈ letterBytes.data.take 64, selectionCount c = 1) ∧
    (∀ c ∈ letterBytes.data.drop 64, selectionCount c = 0) ∧
    (letterBytes.data.drop 64).length = 18 ∧
    ¬ (∀ c ∈ letterBytes.data, ∀ d ∈ letterBytes.data,
        selectionCount c = selectionCount d ∧ 1 ≤ selectionCount c) := by
  have h1 : '\x7d' ∈ letterBytes.data := by decide
  have h2 : 'a' ∈ letterBytes.data := by decide
  have h3 : selectionCount '\x7d' = 0 := by decide
  have h4 : selectionCount 'a' = 1 := by decide
  refine ⟨h1, by decide, h2, h3, h4, by decide, by decide, by decide, ?_⟩
  intro h
  have := (h _ h1 _ h2).2
  omega

/-- C4, as stated, fails: `letterBytes` has 82 characters, not 85. -/
theorem letterBytes_not_85 :
    letterBytes.length = 82 ∧ ¬ (letterBytes.length = 85) := by
  decide

/-- C4, amended: `letterBytes` consists of exactly 82 pairwise distinct characters: the 26
lower-case ASCII letters, then the 26 upper-case ASCII letters, then 30 punctuation and
symbol characters; none of them is a decimal digit. -/
theorem letterBytes_composition :
    letterBytes.length = 82 ∧ letterBytes.data.Nodup ∧
    letterBytes.data.take 26 = "abcdefghijklmnopqrstuvwxyz".data ∧
    (letterBytes.data.drop 26).take 26 = "ABCDEFGHIJKLMNOPQRSTUVWXYZ".data ∧
    (letterBytes.data.drop 52).length = 30 ∧
    (∀ c ∈ letterBytes.data.drop 52, isSymbol c = true) ∧
    (letterBytes.data.filter Char.isLower).length = 26 ∧
    (letterBytes.data.filter Char.isUpper).length = 26 ∧
    (letterBytes.data.filter isSymbol).length = 30 ∧
    (∀ c ∈ letterBytes.data, c.isDigit = false) := by
  refine ⟨by decide, by decide, by decide, by decide, by decide, by decide, by decide,
    by decide, by decide, by decide⟩

/-! ## Claims on the closed form, the draws and the termination of `RandomBytes` -/

/-- The closed form depends only on the first `max(1, ceil(n/10))` draws. -/
theorem closedBytes_congr (src src' : Source) (n : Nat)
    (hagree : ∀ k, k < drawsNeeded n → src k = src' k) :
    closedBytes src n = closedBytes src' n := by
  unfold closedBytes
  apply List.map_congr_left
  intro j hj
  have hjn : j < n := List.mem_range.mp hj
  have hd : (n - 1 - j) / 10 < drawsNeeded n := by
    unfold drawsNeeded
    rw [Nat.max_def]
    split <;> omega
  unfold letterAt
  rw [hagree _ hd]

/-- C11: `RandomBytes` is deterministic in the values of its source: for every length `n`,
two sources that return the same values on their first `max(1, ceil(n/10))` calls make
`RandomBytes` return the same byte sequence, whatever they return afterwards. -/
theorem RandomBytes_deterministic (src src' : Source) (n fuel fuel' : Nat)
    (hf : n ≤ fuel) (hf' : n ≤ fuel')
    (hagree : ∀ k, k < max 1 ((n + 9) / 10) → src k = src' k) :
    RandomBytes fuel src n = RandomBytes fuel' src' n ∧
    ∃ b, RandomBytes fuel src n = .ok b ∧ RandomBytes fuel' src' n = .ok b := by
  have h1 := RandomBytes_eq_closedBytes src n fuel hf
  have h2 := RandomBytes_eq_closedBytes src' n fuel' hf'
  have h3 : closedBytes src n = closedBytes src' n := closedBytes_congr src src' n hagree
  rw [← h3] at h2
  exact ⟨by rw [h1, h2], closedBytes src n, h1, h2⟩

/-- Determinism at a concrete input: two sources with the same first draw and different
later draws, length 3. -/
theorem RandomBytes_deterministic_witness :
    RandomBytes 3 (fun k => if k = 0 then 193 else 7) 3 = .ok ['a', 'd', 'b'] ∧
    RandomBytes 5 (fun k => if k = 0 then 193 else 99) 3 = .ok ['a', 'd', 'b'] ∧
    (RandomBytes 3 (fun k => if k = 0 then 193 else 7) 3 =
      RandomBytes 5 (fun k => if k = 0 then 193 else 99) 3 ∧
    ∃ b, RandomBytes 3 (fun k => if k = 0 then 193 else 7) 3 = .ok b ∧
      RandomBytes 5 (fun k => if k = 0 then 193 else 99) 3 = .ok b) :=
  ⟨by decide, by decide,
    RandomBytes_deterministic (fun k => if k = 0 then 193 else 7)
      (fun k => if k = 0 then 193 else 99) 3 3 5 (by decide) (by decide)
      (by
        intro k hk
        have h0 : k = 0 := by
          have : max 1 ((3 + 9) / 10) = 1 := by decide
          omega
        subst h0
        rfl)⟩

/-- C12: `RandomBytes` terminates for every source and every length `n`, an adversarial
source included: the loop returns after a bounded number of iterations, namely exactly `n`
(a budget of `n` iterations gives the result, and any smaller budget does not). -/
theorem RandomBytes_terminates (src : Source) (n fuel : Nat) (hf : n ≤ fuel) :
    (∃ b, RandomBytes fuel src n = .ok b ∧ RandomBytes n src n = .ok b) ∧
    (∃ c, RandomBytesCalls fuel src n = .ok c) ∧
    (∀ f, f < n → RandomBytes f src n = .error .outOfFuel) := by
  refine ⟨⟨closedBytes src n, RandomBytes_eq_closedBytes src n fuel hf,
    RandomBytes_eq_closedBytes src n n (le_refl _)⟩, ?_, ?_⟩
  · obtain ⟨s', hs', _, hc⟩ := RandomBytesLoop_init src n fuel hf
    exact ⟨s'.calls, by simp [RandomBytesCalls, hs']⟩
  · intro f hfn
    have h := RandomBytesLoop_outOfFuel src f (RandomBytesInit src n)
      (by simp [RandomBytesInit]) (by simp only [RandomBytesInit]; omega)
    simp [RandomBytes, h]

/-- Termination at a concrete input: the source that returns all one-bits on every call,
length 12. -/
theorem RandomBytes_terminates_witness :
    RandomBytes 12 (fun _ => 2 ^ 63 - 1) 12 = .ok (List.replicate 12 '\x7b') ∧
    ((∃ b, RandomBytes 12 (fun _ => 2 ^ 63 - 1) 12 = .ok b ∧
      RandomBytes 12 (fun _ => 2 ^ 63 - 1) 12 = .ok b) ∧
    (∃ c, RandomBytesCalls 12 (fun _ => 2 ^ 63 - 1) 12 = .ok c) ∧
    (∀ f, f < 12 → RandomBytes f (fun _ => 2 ^ 63 - 1) 12 = .error .outOfFuel)) :=
  ⟨by decide, RandomBytes_terminates (fun _ => 2 ^ 63 - 1) 12 12 (by decide)⟩

/-- C13: closed form of `RandomBytes`.  With `d_0, d_1, ...` the successive values of
`src.Int63()`, for every length `n` and every `k < n` the byte at position `n-1-k` of the
output is `letterBytes[(d_(k div 10) >> (6 * (k mod 10))) & 63]`. -/
theorem RandomBytes_closed_form (src : Source) (n fuel : Nat) (hf : n ≤ fuel) :
    ∃ b, RandomBytes fuel src n = .ok b ∧ b.length = n ∧
      ∀ k, k < n → ∃ c, b[n - 1 - k]? = some c ∧
        letterBytes.data[(src (k / 10) >>> (6 * (k % 10))) &&& 63]? = some c := by
  refine ⟨closedBytes src n, RandomBytes_eq_closedBytes src n fuel hf,
    closedBytes_length src n, ?_⟩
  intro k hk
  exact ⟨letterAt src k, closedBytes_getElem? src n k hk, letterAt_eq_getElem? src k⟩

/-- Closed form at a concrete input: the source `k ↦ 193 + k`, length 12 (two draws). -/
theorem RandomBytes_closed_form_witness :
    RandomBytes 12 (fun k => 193 + k) 12 =
      .ok ['d', 'c', 'a', 'a', 'a', 'a', 'a', 'a', 'a', 'a', 'd', 'b'] ∧
    ∃ b, RandomBytes 12 (fun k => 193 + k) 12 = .ok b ∧ b.length = 12 ∧
      ∀ k, k < 12 → ∃ c, b[12 - 1 - k]? = some c ∧
        letterBytes.data[((fun k => 193 + k) (k / 10) >>> (6 * (k % 10))) &&& 63]? = some c :=
  ⟨by decide, RandomBytes_closed_form (fun k => 193 + k) 12 12 (by decide)⟩

/-- C14: for every source and every length `n`, `RandomBytes(src, n)` calls `src.Int63()`
exactly `max(1, ceil(n/10))` times: once for `n = 0`, once for `n = 10`, twice for
`n = 11`. -/
theorem RandomBytes_draws (src : Source) (n fuel : Nat) (hf : n ≤ fuel) :
    RandomBytesCalls fuel src n = .ok (max 1 ((n + 9) / 10)) ∧
    RandomBytesCalls 0 src 0 = .ok 1 ∧
    RandomBytesCalls 10 src 10 = .ok 1 ∧
    RandomBytesCalls 11 src 11 = .ok 2 := by
  have h : ∀ m f, m ≤ f → RandomBytesCalls f src m = .ok (drawsNeeded m) := by
    intro m f hmf
    obtain ⟨s', hs', _, hc⟩ := RandomBytesLoop_init src m f hmf
    simp [RandomBytesCalls, hs', hc]
  exact ⟨h n fuel hf, h 0 0 (le_refl _), h 10 10 (le_refl _), h 11 11 (le_refl _)⟩

/-- Number of draws at a concrete input: length 25 takes three draws. -/
theorem RandomBytes_draws_witness :
    RandomBytesCalls 25 (fun k => 193 + k) 25 = .ok 3 ∧
    (RandomBytesCalls 25 (fun k => 193 + k) 25 = .ok (max 1 ((25 + 9) / 10)) ∧
    RandomBytesCalls 0 (fun k => 193 + k) 0 = .ok 1 ∧
    RandomBytesCalls 10 (fun k => 193 + k) 10 = .ok 1 ∧
    RandomBytesCalls 11 (fun k => 193 + k) 11 = .ok 2) :=
  ⟨by decide, RandomBytes_draws (fun k => 193 + k) 25 25 (by decide)⟩

/-- C15: in `RandomBytes` the rejection branch is unreachable: for every value `cache` the
candidate index `cache & 63` is smaller than `len(letterBytes)`, so every 6-bit group is
consumed as a character; consequently every output byte is one of the first 64 characters of
`letterBytes`, and no character of `letterBytes` at index 64 or above (from the closing brace
onward) appears in any output. -/
theorem RandomBytes_first64 (src : Source) (n fuel : Nat) (hf : n ≤ fuel) :
    (∀ cache : Nat, cache &&& letterIdxMask < letterBytes.data.length) ∧
    (∀ s s' : LoopState, RandomBytesBody src s = .ok s' → s'.i = s.i - 1) ∧
    letterBytes.data[64]? = some '\x7d' ∧
    ∃ b, RandomBytes fuel src n = .ok b ∧
      ∀ c, c ∈ b → c ∈ letterBytes.data.take 64 ∧ c ∉ letterBytes.data.drop 64 := by
  refine ⟨idx_lt_length, RandomBytesBody_consumes src, by decide, closedBytes src n,
    RandomBytes_eq_closedBytes src n fuel hf, ?_⟩
  intro c hc
  simp only [closedBytes, List.mem_map, List.mem_range] at hc
  obtain ⟨j, _, rfl⟩ := hc
  exact ⟨letterAt_mem_take src _, take_drop_disjoint _ (letterAt_mem_take src _)⟩

/-- First-64 claim at a concrete input: the source of all one-bits selects index 63, the
opening brace, at every position. -/
theorem RandomBytes_first64_witness :
    RandomBytes 2 (fun _ => 2 ^ 63 - 1) 2 = .ok ['\x7b', '\x7b'] ∧
    ∃ b, RandomBytes 2 (fun _ => 2 ^ 63 - 1) 2 = .ok b ∧
      ∀ c, c ∈ b → c ∈ letterBytes.data.take 64 ∧ c ∉ letterBytes.data.drop 64 :=
  ⟨by decide, (RandomBytes_first64 (fun _ => 2 ^ 63 - 1) 2 2 (by decide)).2.2.2⟩

/-- C16: suffix property of `RandomBytes`: for `n ≤ m` and two sources that return the same
sequence of values, `RandomBytes(src, n)` equals the last `n` bytes of
`RandomBytes(src', m)`. -/
theorem RandomBytes_suffix (src src' : Source) (n m fuel fuel' : Nat) (hnm : n ≤ m)
    (hf : n ≤ fuel) (hf' : m ≤ fuel') (hsame : ∀ k, src k = src' k) :
    ∃ bn bm, RandomBytes fuel src n = .ok bn ∧ RandomBytes fuel' src' m = .ok bm ∧
      bn.length = n ∧ bm.length = m ∧ bn = bm.drop (m - n) := by
  have hs : src = src' := funext hsame
  subst hs
  exact ⟨closedBytes src n, closedBytes src m, RandomBytes_eq_closedBytes src n fuel hf,
    RandomBytes_eq_closedBytes src m fuel' hf', closedBytes_length src n,
    closedBytes_length src m, closedBytes_drop src n m hnm⟩

/-- Suffix property at a concrete input: lengths 2 and 12 on the source `k ↦ 193 + k`. -/
theorem RandomBytes_suffix_witness :
    RandomBytes 2 (fun k => 193 + k) 2 = .ok ['d', 'b'] ∧
    RandomBytes 12 (fun k => 193 + k) 12 =
      .ok ['d', 'c', 'a', 'a', 'a', 'a', 'a', 'a', 'a', 'a', 'd', 'b'] ∧
    ∃ bn bm, RandomBytes 2 (fun k => 193 + k) 2 = .ok bn ∧
      RandomBytes 12 (fun k => 193 + k) 12 = .ok bm ∧
      bn.length = 2 ∧ bm.length = 12 ∧ bn = bm.drop (12 - 2) :=
  ⟨by decide, by decide,
    RandomBytes_suffix (fun k => 193 + k) (fun k => 193 + k) 2 12 2 12 (by decide) (by decide)
      (by decide) (fun _ => rfl)⟩

/-! ## Lemmas on `UUID` and on reads -/

theorem variant_bits (x : Nat) : (andNot x 0xc0 ||| 0x80) &&& 0xc0 = 0x80 := by
  have h : x &&& 63 ≤ 63 := Nat.and_le_right
  show (x &&& 63 ||| 128) &&& 192 = 128
  generalize x &&& 63 = y at h
  interval_cases y <;> rfl

theorem version_bits (x : Nat) : (andNot x 0xf0 ||| 0x40) &&& 0xf0 = 0x40 := by
  have h : x &&& 15 ≤ 15 := Nat.and_le_right
  show (x &&& 15 ||| 64) &&& 240 = 64
  generalize x &&& 15 = y at h
  interval_cases y <;> rfl

theorem setVariantVersion_length (u : List Nat) : (setVariantVersion u).length = u.length := by
  simp [setVariantVersion]

/-- The bytes 8 and 6 after the two assignments. -/
theorem setVariantVersion_bits (u : List Nat) (hlen : u.length = 16) :
    (setVariantVersion u).getD 8 0 &&& 0xc0 = 0x80 ∧
    (setVariantVersion u).getD 6 0 &&& 0xf0 = 0x40 := by
  constructor
  · have h : (setVariantVersion u).getD 8 0 = andNot (u.getD 8 0) 0xc0 ||| 0x80 := by
      simp [setVariantVersion, List.getD_eq_getElem?_getD, List.getElem?_set, hlen]
    rw [h]
    exact variant_bits _
  · have h : (setVariantVersion u).getD 6 0 =
        andNot ((u.set 8 (andNot (u.getD 8 0) 0xc0 ||| 0x80)).getD 6 0) 0xf0 ||| 0x40 := by
      simp [setVariantVersion, List.getD_eq_getElem?_getD, List.getElem?_set, hlen]
    rw [h]
    exact version_bits _

/-- A successful read of at least 16 bytes fills the whole buffer with the first 16 bytes
delivered. -/
theorem ReadFull_full (r : Reader) (len : Nat) (hn : len ≤ r.bytes.length) :
    ReadFull r (List.replicate len 0) =
      ((r.bytes.take len).map (· % 256), (len : Int), r.err) := by
  simp [ReadFull, Nat.min_eq_left hn]

/-- A read never changes the length of the buffer it reads into. -/
theorem ReadFull_length (r : Reader) (buf : List Nat) :
    (ReadFull r buf).1.length = buf.length := by
  simp only [ReadFull, List.length_append, List.length_map, List.length_take, List.length_drop]
  omega

/-- The error that a read reports is handed through unchanged. -/
theorem ReadFull_err (r : Reader) (buf : List Nat) : (ReadFull r buf).2.2 = r.err := rfl

/-- On a successful read `UUID` renders the versioned buffer. -/
theorem UUID_ok (r : Reader) (hn : 16 ≤ r.bytes.length) (he : r.err = none) :
    UUID r = (render (setVariantVersion ((r.bytes.take 16).map (· % 256))), none) := by
  unfold UUID
  simp only []
  rw [ReadFull_full r 16 hn]
  simp [he, Nat.min_eq_left hn]

/-- When the read is short or reports an error, `UUID` returns the empty string and the
error of the read. -/
theorem UUID_fail (r : Reader)
    (h : (ReadFull r (List.replicate 16 0)).2.1 ≠ 16 ∨ r.err ≠ none) :
    UUID r = ("", r.err) := by
  unfold UUID
  simp only []
  rw [if_pos]
  · rfl
  · rw [ReadFull_length]
    simpa using h

theorem ldigits_isLowerHex : ∀ d < 16, isLowerHex (ldigits.data.getD d '?') = true := by
  decide

theorem fmtByte_hi (c : Nat) (hc : c < 256) :
    isLowerHex (ldigits.data.getD (c >>> 4) '?') = true := by
  apply ldigits_isLowerHex
  rw [Nat.shiftRight_eq_div_pow]
  omega

theorem fmtByte_lo (c : Nat) : isLowerHex (ldigits.data.getD (c &&& 0xF) '?') = true := by
  apply ldigits_isLowerHex
  have h : c &&& 0xF ≤ 0xF := Nat.and_le_right
  omega

theorem version_digit (x : Nat) :
    ldigits.data.getD ((andNot x 0xf0 ||| 0x40) >>> 4) '?' = '4' := by
  have h : x &&& 15 ≤ 15 := Nat.and_le_right
  show ldigits.data.getD ((x &&& 15 ||| 64) >>> 4) '?' = '4'
  generalize x &&& 15 = y at h
  interval_cases y <;> rfl

theorem variant_digit (x : Nat) :
    (fun c => c == '8' || c == '9' || c == 'a' || c == 'b')
      (ldigits.data.getD ((andNot x 0xc0 ||| 0x80) >>> 4) '?') = true := by
  have h : x &&& 63 ≤ 63 := Nat.and_le_right
  show (fun c => c == '8' || c == '9' || c == 'a' || c == 'b')
      (ldigits.data.getD ((x &&& 63 ||| 128) >>> 4) '?') = true
  generalize x &&& 63 = y at h
  interval_cases y <;> rfl

/-- The rendering of a versioned 16-byte buffer, character by character. -/
theorem render_sixteen (b0 b1 b2 b3 b4 b5 b6 b7 b8 b9 b10 b11 b12 b13 b14 b15 : Nat) :
    (render (setVariantVersion
      [b0, b1, b2, b3, b4, b5, b6, b7, b8, b9, b10, b11, b12, b13, b14, b15])).data =
    fmtByte b0 ++ fmtByte b1 ++ fmtByte b2 ++ fmtByte b3 ++ ['-'] ++
    fmtByte b4 ++ fmtByte b5 ++ ['-'] ++
    fmtByte (andNot b6 0xf0 ||| 0x40) ++ fmtByte b7 ++ ['-'] ++
    fmtByte (andNot b8 0xc0 ||| 0x80) ++ fmtByte b9 ++ ['-'] ++
    fmtByte b10 ++ fmtByte b11 ++ fmtByte b12 ++ fmtByte b13 ++ fmtByte b14 ++ fmtByte b15 := by
  simp [render, setVariantVersion, slice, fmtX]

/-- Every character of the rendering of a versioned 16-byte buffer is allowed by the
pattern at its index. -/
theorem render_patternAt (b0 b1 b2 b3 b4 b5 b6 b7 b8 b9 b10 b11 b12 b13 b14 b15 : Nat)
    (h0 : b0 < 256) (h1 : b1 < 256) (h2 : b2 < 256) (h3 : b3 < 256) (h4 : b4 < 256)
    (h5 : b5 < 256) (h7 : b7 < 256) (h9 : b9 < 256) (h10 : b10 < 256) (h11 : b11 < 256)
    (h12 : b12 < 256) (h13 : b13 < 256) (h14 : b14 < 256) (h15 : b15 < 256)
    (i : Nat) (hi : i < 36) :
    patternAt i ((render (setVariantVersion
      [b0, b1, b2, b3, b4, b5, b6, b7, b8, b9, b10, b11, b12, b13, b14, b15])).data.getD i ' ') = true := by
  rw [render_sixteen]
  have v6 := version_digit b6
  have v8 := variant_digit b8
  simp only [fmtByte, List.cons_append, List.nil_append]
  interval_cases i
  all_goals simp only [List.getD_cons_zero, List.getD_cons_succ]
  case «0» => exact fmtByte_hi _ h0
  case «1» => exact fmtByte_lo _
  case «2» => exact fmtByte_hi _ h1
  case «3» => exact fmtByte_lo _
  case «4» => exact fmtByte_hi _ h2
  case «5» => exact fmtByte_lo _
  case «6» => exact fmtByte_hi _ h3
  case «7» => exact fmtByte_lo _
  case «8» => rfl
  case «9» => exact fmtByte_hi _ h4
  case «10» => exact fmtByte_lo _
  case «11» => exact fmtByte_hi _ h5
  case «12» => exact fmtByte_lo _
  case «13» => rfl
  case «14» => rw [v6]; rfl
  case «15» => exact fmtByte_lo _
  case «16» => exact fmtByte_hi _ h7
  case «17» => exact fmtByte_lo _
  case «18» => rfl
  case «19» => exact v8
  case «20» => exact fmtByte_lo _
  case «21» => exact fmtByte_hi _ h9
  case «22» => exact fmtByte_lo _
  case «23» => rfl
  case «24» => exact fmtByte_hi _ h10
  case «25» => exact fmtByte_lo _
  case «26» => exact fmtByte_hi _ h11
  case «27» => exact fmtByte_lo _
  case «28» => exact fmtByte_hi _ h12
  case «29» => exact fmtByte_lo _
  case «30» => exact fmtByte_hi _ h13
  case «31» => exact fmtByte_lo _
  case «32» => exact fmtByte_hi _ h14
  case «33» => exact fmtByte_lo _
  case «34» => exact fmtByte_hi _ h15
  case «35» => exact fmtByte_lo _

/-- A list of at least 16 elements starts with 16 elements. -/
theorem take_sixteen (l : List Nat) (h : 16 ≤ l.length) :
    ∃ b0 b1 b2 b3 b4 b5 b6 b7 b8 b9 b10 b11 b12 b13 b14 b15 : Nat,
      l.take 16 = [b0, b1, b2, b3, b4, b5, b6, b7, b8, b9, b10, b11, b12, b13, b14, b15] := by
  rcases l with _ | ⟨b0, l⟩
  · simp at h
  rcases l with _ | ⟨b1, l⟩
  · simp at h
  rcases l with _ | ⟨b2, l⟩
  · simp at h
  rcases l with _ | ⟨b3, l⟩
  · simp at h
  rcases l with _ | ⟨b4, l⟩
  · simp at h
  rcases l with _ | ⟨b5, l⟩
  · simp at h
  rcases l with _ | ⟨b6, l⟩
  · simp at h
  rcases l with _ | ⟨b7, l⟩
  · simp at h
  rcases l with _ | ⟨b8, l⟩
  · simp at h
  rcases l with _ | ⟨b9, l⟩
  · simp at h
  rcases l with _ | ⟨b10, l⟩
  · simp at h
  rcases l with _ | ⟨b11, l⟩
  · simp at h
  rcases l with _ | ⟨b12, l⟩
  · simp at h
  rcases l with _ | ⟨b13, l⟩
  · simp at h
  rcases l with _ | ⟨b14, l⟩
  · simp at h
  rcases l with _ | ⟨b15, l⟩
  · simp at h
  exact ⟨b0, b1, b2, b3, b4, b5, b6, b7, b8, b9, b10, b11, b12, b13, b14, b15, by simp⟩

/-- The string that `UUID` returns on a successful read has 36 characters, each allowed by
the pattern at its index. -/
theorem UUID_patternAt (r : Reader) (hn : 16 ≤ r.bytes.length) (he : r.err = none) :
    (UUID r).2 = none ∧ (UUID r).1.data.length = 36 ∧
    ∀ i < 36, patternAt i ((UUID r).1.data.getD i ' ') = true := by
  obtain ⟨b0, b1, b2, b3, b4, b5, b6, b7, b8, b9, b10, b11, b12, b13, b14, b15, hb⟩ := take_sixteen r.bytes hn
  have hm : ∀ x : Nat, x % 256 < 256 := fun x => Nat.mod_lt _ (by decide)
  rw [UUID_ok r hn he, hb]
  simp only [List.map_cons, List.map_nil]
  refine ⟨trivial, ?_, ?_⟩
  · rw [render_sixteen]
    simp [fmtByte]
  · intro i hi
    exact render_patternAt _ _ _ _ _ _ _ _ _ _ _ _ _ _ _ _
      (hm _) (hm _) (hm _) (hm _) (hm _) (hm _) (hm _) (hm _) (hm _) (hm _) (hm _) (hm _)
      (hm _) (hm _) i hi

/-- Outside the postcondition of `io.ReadFull`: on a short read that reports no error the
code returns the empty string with a nil error. -/
theorem UUID_short_read_without_error :
    UUID ⟨[1, 2, 3], none⟩ = ("", none) := by
  decide

/-! ## Lemmas on decoding a UUID string -/

theorem hexVal_ldigits : ∀ d, d < 16 → hexVal (ldigits.data.getD d '?') = d := by
  decide

/-- Decoding the two digits of a byte gives the byte back. -/
theorem byte_roundtrip (b : Nat) (hb : b < 256) :
    16 * hexVal (ldigits.data.getD (b >>> 4) '?') +
      hexVal (ldigits.data.getD (b &&& 0xF) '?') = b := by
  have h1 : b >>> 4 = b / 16 := Nat.shiftRight_eq_div_pow b 4
  have h2 : b &&& 0xF = b % 16 := Nat.and_pow_two_sub_one_eq_mod b 4
  rw [h1, h2, hexVal_ldigits _ (by omega), hexVal_ldigits _ (Nat.mod_lt _ (by decide))]
  omega

/-- No digit that `fmt` writes for `%x` is a hyphen. -/
theorem ldigits_ne_hyphen (i : Nat) : (ldigits.data.getD i '?' != '-') = true := by
  by_cases h : i < 16
  · revert i
    decide
  · have hlen : ldigits.data.length ≤ i := by
      have : ldigits.data.length = 16 := by decide
      omega
    rw [List.getD_eq_default _ _ hlen]
    decide

theorem versioned_lt (x : Nat) : andNot x 0xf0 ||| 0x40 < 256 := by
  have h : x &&& 15 ≤ 15 := Nat.and_le_right
  show (x &&& 15 ||| 64) < 256
  generalize x &&& 15 = y at h
  interval_cases y <;> decide

theorem varianted_lt (x : Nat) : andNot x 0xc0 ||| 0x80 < 256 := by
  have h : x &&& 63 ≤ 63 := Nat.and_le_right
  show (x &&& 63 ||| 128) < 256
  generalize x &&& 63 = y at h
  interval_cases y <;> decide

/-- The assignment of the version bits keeps the low four bits of byte 6. -/
theorem version_keeps_low (x : Nat) : (andNot x 0xf0 ||| 0x40) &&& 0x0F = x &&& 0x0F := by
  have h : x &&& 15 ≤ 15 := Nat.and_le_right
  show (x &&& 15 ||| 64) &&& 15 = x &&& 15
  generalize x &&& 15 = y at h
  interval_cases y <;> rfl

/-- The assignment of the variant bits keeps the low six bits of byte 8. -/
theorem variant_keeps_low (x : Nat) : (andNot x 0xc0 ||| 0x80) &&& 0x3F = x &&& 0x3F := by
  have h : x &&& 63 ≤ 63 := Nat.and_le_right
  show (x &&& 63 ||| 128) &&& 63 = x &&& 63
  generalize x &&& 63 = y at h
  interval_cases y <;> rfl

theorem filter_fmtByte (b : Nat) : (fmtByte b).filter (fun c => c != '-') = fmtByte b := by
  apply List.filter_eq_self.mpr
  intro c hc
  simp only [fmtByte, List.mem_cons, List.mem_singleton, List.not_mem_nil, or_false] at hc
  rcases hc with rfl | rfl <;> exact ldigits_ne_hyphen _

theorem hexDecode_fmtByte_append (b : Nat) (hb : b < 256) (rest : List Char) :
    hexDecode (fmtByte b ++ rest) = b :: hexDecode rest := by
  show (16 * hexVal (ldigits.data.getD (b >>> 4) '?') +
      hexVal (ldigits.data.getD (b &&& 0xF) '?')) :: hexDecode rest = b :: hexDecode rest
  rw [byte_roundtrip b hb]

theorem hexDecode_fmtByte (b : Nat) (hb : b < 256) : hexDecode (fmtByte b) = [b] := by
  have h := hexDecode_fmtByte_append b hb []
  rw [List.append_nil] at h
  rw [h]
  rfl

/-- Removing the hyphens from the rendering of a versioned 16-byte buffer and hex-decoding it
gives the versioned buffer back. -/
theorem decode_sixteen (b0 b1 b2 b3 b4 b5 b6 b7 b8 b9 b10 b11 b12 b13 b14 b15 : Nat)
    (h0 : b0 < 256) (h1 : b1 < 256) (h2 : b2 < 256) (h3 : b3 < 256) (h4 : b4 < 256)
    (h5 : b5 < 256) (h7 : b7 < 256) (h9 : b9 < 256) (h10 : b10 < 256) (h11 : b11 < 256)
    (h12 : b12 < 256) (h13 : b13 < 256) (h14 : b14 < 256) (h15 : b15 < 256) :
    hexDecode (removeHyphens (render (setVariantVersion
      [b0, b1, b2, b3, b4, b5, b6, b7, b8, b9, b10, b11, b12, b13, b14, b15]))) =
    [b0, b1, b2, b3, b4, b5, andNot b6 0xf0 ||| 0x40, b7, andNot b8 0xc0 ||| 0x80, b9, b10, b11, b12, b13, b14, b15] := by
  unfold removeHyphens
  rw [render_sixteen]
  have hy : [('-' : Char)].filter (fun c => c != '-') = [] := by decide
  simp only [List.filter_append, filter_fmtByte, hy, List.append_nil, List.nil_append,
    List.append_assoc]
  rw [hexDecode_fmtByte_append b0 h0,
    hexDecode_fmtByte_append b1 h1,
    hexDecode_fmtByte_append b2 h2,
    hexDecode_fmtByte_append b3 h3,
    hexDecode_fmtByte_append b4 h4,
    hexDecode_fmtByte_append b5 h5,
    hexDecode_fmtByte_append _ (versioned_lt b6),
    hexDecode_fmtByte_append b7 h7,
    hexDecode_fmtByte_append _ (varianted_lt b8),
    hexDecode_fmtByte_append b9 h9,
    hexDecode_fmtByte_append b10 h10,
    hexDecode_fmtByte_append b11 h11,
    hexDecode_fmtByte_append b12 h12,
    hexDecode_fmtByte_append b13 h13,
    hexDecode_fmtByte_append b14 h14,
    hexDecode_fmtByte b15 h15]

/-! ## Claims on `UUID` and `Salt` -/

/-- C5: for every 16-byte sequence read from the entropy source, the bytes that `UUID`
renders have the two most-significant bits of byte 8 equal to `10` and the four
most-significant bits of byte 6 equal to `0100`. -/
theorem UUID_variant_version (r : Reader) (hn : 16 ≤ r.bytes.length) (he : r.err = none) :
    ∃ u : List Nat, (ReadFull r (List.replicate 16 0)).1 = u ∧ u.length = 16 ∧
      UUID r = (render (setVariantVersion u), none) ∧
      (setVariantVersion u).length = 16 ∧
      (setVariantVersion u).getD 8 0 &&& 0xC0 = 0x80 ∧
      (setVariantVersion u).getD 6 0 &&& 0xF0 = 0x40 := by
  have hlen : ((r.bytes.take 16).map (· % 256)).length = 16 := by
    simp [Nat.min_eq_left hn]
  refine ⟨(r.bytes.take 16).map (· % 256), ?_, hlen, UUID_ok r hn he, ?_,
    (setVariantVersion_bits _ hlen).1, (setVariantVersion_bits _ hlen).2⟩
  · rw [ReadFull_full r 16 hn]
  · rw [setVariantVersion_length, hlen]

/-- Variant and version bits at a concrete input: the source delivers sixteen bytes
`0xff`. -/
theorem UUID_variant_version_witness :
    UUID ⟨List.replicate 16 255, none⟩ = ("ffffffff-ffff-4fff-bfff-ffffffffffff", none) ∧
    ∃ u : List Nat, (ReadFull ⟨List.replicate 16 255, none⟩ (List.replicate 16 0)).1 = u ∧
      u.length = 16 ∧
      UUID ⟨List.replicate 16 255, none⟩ = (render (setVariantVersion u), none) ∧
      (setVariantVersion u).length = 16 ∧
      (setVariantVersion u).getD 8 0 &&& 0xC0 = 0x80 ∧
      (setVariantVersion u).getD 6 0 &&& 0xF0 = 0x40 :=
  ⟨by decide, UUID_variant_version ⟨List.replicate 16 255, none⟩ (by decide) rfl⟩

/-- C6: for every 16-byte sequence read successfully from the entropy source, the string
returned by `UUID` has exactly 36 characters and matches
the version-4 pattern (8, 4, 4, 4 and 12 lower-case hexadecimal digits separated by hyphens):
hyphens at the indices 8, 13, 18 and 23, the character 4 at index 14, one of 8, 9, a, b at
index 19, and a lower-case hexadecimal digit everywhere else. -/
theorem UUID_pattern (r : Reader) (hn : 16 ≤ r.bytes.length) (he : r.err = none) :
    (UUID r).2 = none ∧ (UUID r).1.length = 36 ∧ matchesUUIDPattern (UUID r).1 = true ∧
    (∀ i ∈ [8, 13, 18, 23], (UUID r).1.data.getD i ' ' = '-') ∧
    (UUID r).1.data.getD 14 ' ' = '4' ∧
    (UUID r).1.data.getD 19 ' ' ∈ ['8', '9', 'a', 'b'] ∧
    (∀ i < 36, i ∉ [8, 13, 18, 23] → isLowerHex ((UUID r).1.data.getD i ' ') = true) := by
  obtain ⟨herr, hlen, hpat⟩ := UUID_patternAt r hn he
  have hlen' : (UUID r).1.length = 36 := hlen
  refine ⟨herr, hlen', ?_, ?_, ?_, ?_, ?_⟩
  · simp only [matchesUUIDPattern, hlen', Bool.and_eq_true, List.all_eq_true, List.mem_range]
    exact ⟨rfl, hpat⟩
  · intro i hi
    have h := hpat i (by revert hi; simp; omega)
    simp only [List.mem_cons, List.mem_singleton, List.not_mem_nil, or_false] at hi
    rcases hi with rfl | rfl | rfl | rfl <;> simpa [patternAt] using h
  · simpa [patternAt] using hpat 14 (by decide)
  · simpa [patternAt, or_assoc] using hpat 19 (by decide)
  · intro i hi hni
    have h := hpat i hi
    simp only [List.mem_cons, List.mem_singleton, List.not_mem_nil, or_false, not_or] at hni
    obtain ⟨h8, h13, h18, h23⟩ := hni
    by_cases h14 : i = 14
    · subst h14
      have : (UUID r).1.data.getD 14 ' ' = '4' := by simpa [patternAt] using h
      rw [this]; rfl
    · by_cases h19 : i = 19
      · subst h19
        have : (UUID r).1.data.getD 19 ' ' ∈ ['8', '9', 'a', 'b'] := by
          simpa [patternAt, or_assoc] using h
        simp only [List.mem_cons, List.mem_singleton, List.not_mem_nil, or_false] at this
        rcases this with e | e | e | e <;> rw [e] <;> rfl
      · simpa [patternAt, h8, h13, h18, h23, h14, h19] using h

/-- Pattern claim at a concrete input: the source delivers the bytes 0, 1, ..., 15, all
below `0x10`. -/
theorem UUID_pattern_witness :
    UUID ⟨List.range 16, none⟩ = ("00010203-0405-4607-8809-0a0b0c0d0e0f", none) ∧
    ((UUID ⟨List.range 16, none⟩).2 = none ∧ (UUID ⟨List.range 16, none⟩).1.length = 36 ∧
    matchesUUIDPattern (UUID ⟨List.range 16, none⟩).1 = true ∧
    (∀ i ∈ [8, 13, 18, 23], (UUID ⟨List.range 16, none⟩).1.data.getD i ' ' = '-') ∧
    (UUID ⟨List.range 16, none⟩).1.data.getD 14 ' ' = '4' ∧
    (UUID ⟨List.range 16, none⟩).1.data.getD 19 ' ' ∈ ['8', '9', 'a', 'b'] ∧
    (∀ i < 36, i ∉ [8, 13, 18, 23] →
      isLowerHex ((UUID ⟨List.range 16, none⟩).1.data.getD i ' ') = true)) :=
  ⟨by decide, UUID_pattern ⟨List.range 16, none⟩ (by decide) rfl⟩

/-- C7: `UUID` fails with an error whenever the entropy read obtains fewer than 16 bytes or
reports an error.  For every outcome `(n, err)` of `io.ReadFull` (which satisfies the
postcondition of `io.ReadFull`: `n == len(buf)` if and only if `err == nil`): when `n != 16`
or `err != nil`, `UUID` returns the empty string and a non-nil error, the one of the read;
when `n = 16` and `err = nil` it returns a non-empty string and a nil error. -/
theorem UUID_error (r : Reader)
    (hRF : (uuidRead r).1 = 16 ↔ (uuidRead r).2 = none) :
    (((uuidRead r).1 ≠ 16 ∨ (uuidRead r).2 ≠ none) →
      (UUID r).1 = "" ∧ (UUID r).2 ≠ none ∧ (UUID r).2 = (uuidRead r).2) ∧
    (((uuidRead r).1 = 16 ∧ (uuidRead r).2 = none) →
      (UUID r).1 ≠ "" ∧ (UUID r).2 = none) := by
  have herr : (uuidRead r).2 = r.err := rfl
  have hn : (uuidRead r).1 = (ReadFull r (List.replicate 16 0)).2.1 := rfl
  rw [herr] at hRF ⊢
  rw [hn] at hRF ⊢
  constructor
  · intro h
    rw [UUID_fail r h]
    refine ⟨rfl, ?_, rfl⟩
    show r.err ≠ none
    rcases h with h | h
    · exact fun he => h (hRF.mpr he)
    · exact h
  · rintro ⟨hn, he⟩
    have hlen : 16 ≤ r.bytes.length := by
      simp only [ReadFull, List.length_map, List.length_take, List.length_replicate] at hn
      omega
    obtain ⟨herr, hl, _⟩ := UUID_patternAt r hlen he
    refine ⟨?_, herr⟩
    intro h0
    rw [h0] at hl
    simp at hl

/-- Error claim at two concrete inputs: a read that stops after 15 bytes with
`unexpected EOF`, and a read that delivers sixteen bytes `0xab` without error. -/
theorem UUID_error_witness :
    (uuidRead ⟨List.range 15, some ⟨"unexpected EOF"⟩⟩ = (15, some ⟨"unexpected EOF"⟩) ∧
      UUID ⟨List.range 15, some ⟨"unexpected EOF"⟩⟩ = ("", some ⟨"unexpected EOF"⟩) ∧
      (UUID ⟨List.range 15, some ⟨"unexpected EOF"⟩⟩).1 = "" ∧
      (UUID ⟨List.range 15, some ⟨"unexpected EOF"⟩⟩).2 ≠ none) ∧
    (uuidRead ⟨List.replicate 16 171, none⟩ = (16, none) ∧
      UUID ⟨List.replicate 16 171, none⟩ = ("abababab-abab-4bab-abab-abababababab", none) ∧
      (UUID ⟨List.replicate 16 171, none⟩).1 ≠ "" ∧
      (UUID ⟨List.replicate 16 171, none⟩).2 = none) :=
  ⟨⟨by decide, by decide,
      ((UUID_error ⟨List.range 15, some ⟨"unexpected EOF"⟩⟩ (by decide)).1 (by decide)).1,
      ((UUID_error ⟨List.range 15, some ⟨"unexpected EOF"⟩⟩ (by decide)).1 (by decide)).2.1⟩,
    ⟨by decide, by decide,
      ((UUID_error ⟨List.replicate 16 171, none⟩ (by decide)).2 (by decide)).1,
      ((UUID_error ⟨List.replicate 16 171, none⟩ (by decide)).2 (by decide)).2⟩⟩

/-- C8: `Salt` always returns a byte sequence of exactly 256 bytes, whatever the outcome of
the entropy read, and the error it returns is exactly the error of the read: nil if and only
if the read reported no error. -/
theorem Salt_length_err (r : Reader) :
    (Salt r).1.length = 256 ∧ (∀ b ∈ (Salt r).1, b < 256) ∧
    (Salt r).2 = (ReadFull r (List.replicate saltLen 0)).2.2 ∧ (Salt r).2 = r.err ∧
    ((Salt r).2 = none ↔ r.err = none) := by
  have h1 : (Salt r).1 = (ReadFull r (List.replicate saltLen 0)).1 := rfl
  have h2 : (Salt r).2 = r.err := rfl
  refine ⟨?_, ?_, rfl, h2, by rw [h2]⟩
  · rw [h1, ReadFull_length, List.length_replicate]
    rfl
  · intro b hb
    rw [h1] at hb
    simp only [ReadFull, List.mem_append, List.mem_map] at hb
    rcases hb with ⟨x, _, rfl⟩ | hb
    · exact Nat.mod_lt _ (by decide)
    · have := List.mem_of_mem_drop hb
      rw [List.mem_replicate] at this
      omega

/-- C17: `UUID` changes only the version and variant bits and renders losslessly: for every
16 bytes `u` read from the entropy source, removing the four hyphens from the returned
string and hex-decoding it yields 16 bytes `v` with `v[i] = u[i]` for every `i` other than 6
and 8, `v[6] & 0x0F = u[6] & 0x0F` and `v[8] & 0x3F = u[8] & 0x3F`. -/
theorem UUID_lossless (r : Reader) (hn : 16 ≤ r.bytes.length) (he : r.err = none) :
    ∃ u v : List Nat, (ReadFull r (List.replicate 16 0)).1 = u ∧
      hexDecode (removeHyphens (UUID r).1) = v ∧ u.length = 16 ∧ v.length = 16 ∧
      (∀ i, i < 16 → i ≠ 6 → i ≠ 8 → v[i]? = u[i]?) ∧
      v.getD 6 0 &&& 0x0F = u.getD 6 0 &&& 0x0F ∧
      v.getD 8 0 &&& 0x3F = u.getD 8 0 &&& 0x3F := by
  obtain ⟨b0, b1, b2, b3, b4, b5, b6, b7, b8, b9, b10, b11, b12, b13, b14, b15, hb⟩ := take_sixteen r.bytes hn
  have hm : ∀ x : Nat, x % 256 < 256 := fun x => Nat.mod_lt _ (by decide)
  rw [UUID_ok r hn he, ReadFull_full r 16 hn, hb]
  simp only [List.map_cons, List.map_nil]
  rw [decode_sixteen _ _ _ _ _ _ _ _ _ _ _ _ _ _ _ _
    (hm _) (hm _) (hm _) (hm _) (hm _) (hm _) (hm _) (hm _) (hm _) (hm _) (hm _) (hm _)
    (hm _) (hm _)]
  refine ⟨_, _, rfl, rfl, rfl, rfl, ?_, ?_, ?_⟩
  · intro i hi h6 h8
    interval_cases i <;> first | rfl | exact absurd rfl h6 | exact absurd rfl h8
  · exact version_keeps_low _
  · exact variant_keeps_low _

/-- Lossless rendering at a concrete input: the source delivers sixteen bytes `0xff`; only
the bytes 6 and 8 differ after decoding. -/
theorem UUID_lossless_witness :
    hexDecode (removeHyphens (UUID ⟨List.replicate 16 255, none⟩).1) =
      [255, 255, 255, 255, 255, 255, 79, 255, 191, 255, 255, 255, 255, 255, 255, 255] ∧
    ∃ u v : List Nat, (ReadFull ⟨List.replicate 16 255, none⟩ (List.replicate 16 0)).1 = u ∧
      hexDecode (removeHyphens (UUID ⟨List.replicate 16 255, none⟩).1) = v ∧
      u.length = 16 ∧ v.length = 16 ∧
      (∀ i, i < 16 → i ≠ 6 → i ≠ 8 → v[i]? = u[i]?) ∧
      v.getD 6 0 &&& 0x0F = u.getD 6 0 &&& 0x0F ∧
      v.getD 8 0 &&& 0x3F = u.getD 8 0 &&& 0x3F :=
  ⟨by decide, UUID_lossless ⟨List.replicate 16 255, none⟩ (by decide) rfl⟩

/-! ## Claims on `EncryptPassword` -/

/-- C9: `EncryptPassword` calls the key-derivation function with `N = 32768 = 2^15`, `r = 8`,
`p = 1` and key length 256; on every platform (`maxInt` at least `2^31 - 1`) these satisfy
the validity conditions of scrypt, so for every password and every salt, the empty salt
included, no invalid-parameter error is returned and the derived key has exactly 256
bytes. -/
theorem EncryptPassword_params (maxInt : Nat)
    (derive : List Nat → List Nat → Nat → Nat → Nat → Nat → Nat) (pw salt : List Nat)
    (hmax : 2 ^ 31 - 1 ≤ maxInt) :
    EncryptPassword maxInt derive pw salt =
      scryptKey maxInt derive pw salt 32768 8 1 256 ∧
    (32768 : Nat) = 2 ^ 15 ∧
    (1 < scryptN ∧ scryptN &&& (scryptN - 1) = 0 ∧ scryptN = 2 ^ 15 ∧
      scryptR * scryptP < 2 ^ 30 ∧ scryptR ≤ maxInt / 128 / scryptP ∧
      scryptR ≤ maxInt / 256 ∧ scryptN ≤ maxInt / 128 / scryptR) ∧
    scryptParamsValid maxInt scryptN scryptR scryptP = true ∧
    (EncryptPassword maxInt derive pw salt).2 = none ∧
    (EncryptPassword maxInt derive pw salt).1.length = 256 ∧
    (EncryptPassword maxInt derive pw []).2 = none ∧
    (EncryptPassword maxInt derive pw []).1.length = 256 := by
  have hc : 1 < scryptN ∧ scryptN &&& (scryptN - 1) = 0 ∧ scryptN = 2 ^ 15 ∧
      scryptR * scryptP < 2 ^ 30 ∧ scryptR ≤ maxInt / 128 / scryptP ∧
      scryptR ≤ maxInt / 256 ∧ scryptN ≤ maxInt / 128 / scryptR := by
    refine ⟨by decide, by decide, by decide, by decide, ?_, ?_, ?_⟩
    · simp only [scryptR, scryptP]; omega
    · simp only [scryptR]; omega
    · simp only [scryptN, scryptR]; omega
  have hv : scryptParamsValid maxInt scryptN scryptR scryptP = true := by
    obtain ⟨h1, h2, _, h3, h4, h5, h6⟩ := hc
    simp only [scryptParamsValid, Bool.and_eq_true, decide_eq_true_eq]
    exact ⟨⟨h1, h2⟩, ⟨⟨⟨h3, h4⟩, h5⟩, h6⟩⟩
  have hk : ∀ s : List Nat, (EncryptPassword maxInt derive pw s).2 = none ∧
      (EncryptPassword maxInt derive pw s).1.length = 256 := by
    intro s
    simp only [EncryptPassword, scryptKey, hv, if_true, List.length_map, List.length_range]
    exact ⟨trivial, rfl⟩
  exact ⟨rfl, by decide, hc, hv, (hk salt).1, (hk salt).2, (hk []).1, (hk []).2⟩

/-- Parameter claim at a concrete input: a 32-bit platform, the empty salt. -/
theorem EncryptPassword_params_witness :
    2 ^ 31 - 1 ≤ 2147483647 ∧
    (EncryptPassword 2147483647 (fun _ _ _ _ _ i => i) [112, 119] []).2 = none ∧
    (EncryptPassword 2147483647 (fun _ _ _ _ _ i => i) [112, 119] []).1.length = 256 :=
  ⟨by decide,
    (EncryptPassword_params 2147483647 (fun _ _ _ _ _ i => i) [112, 119] []
      (by decide)).2.2.2.2.1,
    (EncryptPassword_params 2147483647 (fun _ _ _ _ _ i => i) [112, 119] []
      (by decide)).2.2.2.2.2.1⟩

/-- The parameter check does reject other parameters: a cost factor that is not a power of
two. -/
theorem scryptKey_rejects :
    scryptKey 2147483647 (fun _ _ _ _ _ i => i) [] [] 3 8 1 256 =
      ([], some ⟨"scrypt: invalid parameters"⟩) := by
  decide

end Generate

namespace Pg

/-! ## `WrapError` -/

/-- On every error value other than the nil `*pq.Error`, `WrapError` returns as the claim
says. -/
theorem WrapError_cases (e : Option GoError) (hne : e ≠ some .nilPqError) :
    wrapsAsClaimed e := by
  refine ⟨?_, ?_, ?_⟩
  · rintro detail rfl
    simp [WrapError, codeDuplicateKeyViolation]
  · rintro detail rfl
    simp [WrapError, codeDuplicateKeyViolation, codeRelationNotFound]
  · intro h1 h2
    rcases e with _ | (⟨code, detail⟩ | _ | _ | _ | msg)
    · rfl
    · have c1 : code ≠ "23505" := fun hc => h1 ⟨detail, by rw [hc]⟩
      have c2 : code ≠ "42P01" := fun hc => h2 ⟨detail, by rw [hc]⟩
      simp [WrapError, codeDuplicateKeyViolation, codeRelationNotFound, c1, c2]
    · exact absurd rfl hne
    · rfl
    · rfl
    · rfl

/-- On every error value other than the nil `*pq.Error`, `WrapError` returns a value that
it maps to itself. -/
theorem WrapError_idempotent (e : Option GoError) (hne : e ≠ some .nilPqError) :
    idempotentAt e := by
  rcases e with _ | (⟨code, detail⟩ | _ | _ | _ | msg)
  · exact ⟨none, rfl, rfl, by simp [IsNotUnique, ErrNotUnique]⟩
  · by_cases h1 : code = "23505"
    · subst h1
      exact ⟨ErrNotUnique, rfl, rfl, by simp [IsNotUnique]⟩
    · by_cases h2 : code = "42P01"
      · subst h2
        exact ⟨ErrRelationNotFound, rfl, rfl,
          by simp [IsNotUnique, ErrNotUnique, ErrRelationNotFound]⟩
      · have hw : WrapError (some (.pqError code detail)) = .ok (some (.pqError code detail)) := by
          simp [WrapError, codeDuplicateKeyViolation, codeRelationNotFound, h1, h2]
        exact ⟨_, hw, hw, by simp [IsNotUnique, ErrNotUnique, h1]⟩
  · exact absurd rfl hne
  · exact ⟨_, rfl, rfl, by simp [IsNotUnique, ErrNotUnique]⟩
  · exact ⟨_, rfl, rfl, by simp [IsNotUnique, ErrNotUnique]⟩
  · exact ⟨_, rfl, rfl, by simp [IsNotUnique, ErrNotUnique]⟩

/-! ## Claims on `WrapError` -/

/-- C10, evaluation of the code: on the nil `*pq.Error` stored in the error interface, a
value that is neither nil nor a Postgres error with a code, `WrapError` does not return the
value itself but panics on the read of `err.Code`; so the mapping does not hold for every
error value.  It holds for every other one: codes `23505` and `42P01` give the two sentinels
and everything else is returned unchanged. -/
theorem WrapError_nil_pointer_panics :
    WrapError (some .nilPqError) = .error .nilDereference ∧
    WrapError (some .nilPqError) ≠ .ok (some .nilPqError) ∧
    ¬ wrapsAsClaimed (some .nilPqError) ∧
    ¬ (∀ e, wrapsAsClaimed e) ∧
    (∀ e, e ≠ some .nilPqError → wrapsAsClaimed e) ∧
    WrapError (some (.pqError "23505" "duplicate key")) = .ok ErrNotUnique ∧
    WrapError (some (.pqError "42P01" "")) = .ok ErrRelationNotFound ∧
    WrapError (some (.pqError "42601" "syntax")) = .ok (some (.pqError "42601" "syntax")) ∧
    WrapError (some (.other "EOF")) = .ok (some (.other "EOF")) ∧
    WrapError none = .ok none := by
  have hbad : ¬ wrapsAsClaimed (some .nilPqError) := by
    intro h
    have h3 := h.2.2 (by simp) (by simp)
    cases h3
  exact ⟨rfl, by decide, hbad, fun h => hbad (h _), WrapError_cases, by decide, by decide,
    by decide, by decide, by decide⟩

/-- C18, evaluation of the code: on the nil `*pq.Error` stored in the error interface
`WrapError` panics, so `WrapError(WrapError(e))` and `WrapError(e)` return no error to
compare and idempotence does not hold for every error value.  It holds for every other one,
both sentinels are fixed, and there `IsNotUnique(WrapError(e))` holds exactly for a Postgres
error of code `23505` and for `ErrNotUnique`. -/
theorem WrapError_not_idempotent_at_nil_pointer :
    WrapError (some .nilPqError) = .error .nilDereference ∧
    (¬ ∃ e1, WrapError (some .nilPqError) = .ok e1) ∧
    ¬ idempotentAt (some .nilPqError) ∧
    ¬ (∀ e, idempotentAt e) ∧
    (∀ e, e ≠ some .nilPqError → idempotentAt e) ∧
    WrapError ErrNotUnique = .ok ErrNotUnique ∧
    WrapError ErrRelationNotFound = .ok ErrRelationNotFound := by
  have hno : ¬ ∃ e1, WrapError (some .nilPqError) = .ok e1 := by
    rintro ⟨e1, h⟩
    cases h
  have hbad : ¬ idempotentAt (some .nilPqError) := by
    rintro ⟨e1, h, _⟩
    exact hno ⟨e1, h⟩
  exact ⟨rfl, hno, hbad, fun h => hbad (h _), WrapError_idempotent, rfl, rfl⟩

/-! ## Lemmas on `Join` and `Sprintf` -/

/-- The loop of `strings.Join` started with the accumulator `acc`. -/
theorem foldl_join (sep : String) (rest : List String) :
    ∀ acc : String, rest.foldl (fun acc s => acc ++ sep ++ s) acc =
      match rest with
      | [] => acc
      | d :: r => acc ++ sep ++ joined sep (d :: r) := by
  induction rest with
  | nil =>
    intro acc
    rfl
  | cons d rest ih =>
    intro acc
    rw [List.foldl_cons, ih (acc ++ sep ++ d)]
    cases rest with
    | nil => rfl
    | cons e r => simp only [joined, String.append_assoc]

/-- The function `strings.Join` gives the joined string. -/
theorem Join_eq_joined (sep : String) (cs : List String) : Join cs sep = joined sep cs := by
  rcases cs with _ | ⟨c, _ | ⟨d, rest⟩⟩
  · rfl
  · rfl
  · show (d :: rest).foldl (fun acc s => acc ++ sep ++ s) c = joined sep (c :: d :: rest)
    rw [foldl_join]
    simp only [joined, String.append_assoc]

/-- Literal text without a percent sign is copied to the output. -/
theorem SprintfAux_text (p : List Char) (hp : '%' ∉ p) (rest : List Char)
    (args : List String) :
    SprintfAux false (p ++ rest) args =
      (SprintfAux false rest args).map (fun out => p ++ out) := by
  induction p with
  | nil => simp
  | cons c p ih =>
    have hc : ¬ c = '%' := fun h => hp (by rw [h]; exact List.mem_cons_self _ _)
    have hp' : '%' ∉ p := fun h => hp (List.mem_cons_of_mem _ h)
    rw [List.cons_append, SprintfAux, if_neg hc, ih hp', Option.map_map]
    rfl

/-- The verb `%s` writes the next operand. -/
theorem SprintfAux_verb (rest : List Char) (a : String) (args : List String) :
    SprintfAux false ('%' :: 's' :: rest) (a :: args) =
      (SprintfAux false rest args).map (fun out => a.data ++ out) := by
  simp [SprintfAux]

/-- Text without a percent sign at the end of the format, all operands used. -/
theorem SprintfAux_end (p : List Char) (hp : '%' ∉ p) : SprintfAux false p [] = some p := by
  have h := SprintfAux_text p hp [] []
  rw [List.append_nil] at h
  rw [h]
  simp [SprintfAux, extraArgs]

/-- A format of three pieces of text around two verbs `%s`, with two operands. -/
theorem Sprintf_two (f t0 t1 t2 a b : String)
    (hf : f = t0 ++ "%s" ++ t1 ++ "%s" ++ t2)
    (h0 : '%' ∉ t0.data) (h1 : '%' ∉ t1.data) (h2 : '%' ∉ t2.data) :
    Sprintf f [a, b] = some (t0 ++ a ++ t1 ++ b ++ t2) := by
  have hd : f.data = t0.data ++ '%' :: 's' :: (t1.data ++ '%' :: 's' :: t2.data) := by
    rw [hf]
    simp [String.data_append]
  unfold Sprintf
  rw [hd, SprintfAux_text _ h0, SprintfAux_verb, SprintfAux_text _ h1, SprintfAux_verb,
    SprintfAux_end _ h2]
  simp only [Option.map_some']
  congr 1
  apply String.ext
  simp [String.data_append]

/-- A format of four pieces of text around three verbs `%s`, with three operands. -/
theorem Sprintf_three (f t0 t1 t2 t3 a b c : String)
    (hf : f = t0 ++ "%s" ++ t1 ++ "%s" ++ t2 ++ "%s" ++ t3)
    (h0 : '%' ∉ t0.data) (h1 : '%' ∉ t1.data) (h2 : '%' ∉ t2.data) (h3 : '%' ∉ t3.data) :
    Sprintf f [a, b, c] = some (t0 ++ a ++ t1 ++ b ++ t2 ++ c ++ t3) := by
  have hd : f.data = t0.data ++ '%' :: 's' :: (t1.data ++ '%' :: 's' ::
      (t2.data ++ '%' :: 's' :: t3.data)) := by
    rw [hf]
    simp [String.data_append]
  unfold Sprintf
  rw [hd, SprintfAux_text _ h0, SprintfAux_verb, SprintfAux_text _ h1, SprintfAux_verb,
    SprintfAux_text _ h2, SprintfAux_verb, SprintfAux_end _ h3]
  simp only [Option.map_some']
  congr 1
  apply String.ext
  simp [String.data_append]

/-- The pieces of the constant `guardIndex`. -/
theorem guardIndex_eq :
    guardIndex = guardHead ++ "%s" ++ guardMid ++ "%s" ++ guardThen ++ "%s" ++ guardTail := by
  decide

/-- The format `fmtWHERE` applied to one operand. -/
theorem Sprintf_fmtWHERE (j : String) : Sprintf fmtWHERE [j] = some ("WHERE\n" ++ j) := by
  have hd : fmtWHERE.data = "WHERE\n".data ++ '%' :: 's' :: [] := by decide
  unfold Sprintf
  rw [hd, SprintfAux_text _ (by decide), SprintfAux_verb, SprintfAux_end _ (by decide)]
  simp only [Option.map_some']
  congr 1
  apply String.ext
  simp [String.data_append]

/-! ## Claims on `ClausesToWhere` and `GuardIndex` -/

/-- C19: for every list of clauses, `ClausesToWhere` returns the string `WHERE`, a newline,
and the clauses joined with the separator made of a newline and `AND ` in their given order;
for a single clause it is the head followed by the clause, with no `AND`, and for the empty
list it is the head alone. -/
theorem ClausesToWhere_joined (clauses : List String) :
    ClausesToWhere clauses = some ("WHERE\n" ++ joined "\nAND " clauses) ∧
    ClausesToWhere [] = some "WHERE\n" ∧
    (∀ c, ClausesToWhere [c] = some ("WHERE\n" ++ c)) ∧
    (∀ c d, ClausesToWhere [c, d] = some ("WHERE\n" ++ c ++ "\nAND " ++ d)) ∧
    ClausesToWhere ["a = 1", "b = 2", "c = 3"] = some "WHERE\na = 1\nAND b = 2\nAND c = 3" := by
  have h : ∀ cs, ClausesToWhere cs = some ("WHERE\n" ++ joined "\nAND " cs) := by
    intro cs
    unfold ClausesToWhere
    rw [Sprintf_fmtWHERE, Join_eq_joined]
    rfl
  refine ⟨h clauses, by decide, ?_, ?_, by decide⟩
  · intro c
    rw [h]
    rfl
  · intro c d
    rw [h]
    simp only [joined, String.append_assoc]

/-- C20: for every namespace, index and query whose only format verbs are exactly two `%s`
(the query is three pieces of text without a percent sign around the two verbs) and with no
extra operand, `GuardIndex` returns the guard template in which `schemaname` is compared with
the namespace and `indexname` with the index, in that order, and whose guarded statement is
the query with its first `%s` replaced by the index and its second by the namespace. -/
theorem GuardIndex_two_verbs (ns index query t0 t1 t2 : String)
    (hq : query = t0 ++ "%s" ++ t1 ++ "%s" ++ t2)
    (h0 : '%' ∉ t0.data) (h1 : '%' ∉ t1.data) (h2 : '%' ∉ t2.data) :
    GuardIndex ns index query [] =
      some (guardHead ++ ns ++ guardMid ++ index ++ guardThen ++
        (t0 ++ index ++ t1 ++ ns ++ t2) ++ guardTail) ∧
    Sprintf query [index, ns] = some (t0 ++ index ++ t1 ++ ns ++ t2) ∧
    guardIndex = guardHead ++ "%s" ++ guardMid ++ "%s" ++ guardThen ++ "%s" ++ guardTail := by
  have hin : Sprintf query [index, ns] = some (t0 ++ index ++ t1 ++ ns ++ t2) :=
    Sprintf_two query t0 t1 t2 index ns hq h0 h1 h2
  refine ⟨?_, hin, guardIndex_eq⟩
  unfold GuardIndex
  simp only [List.append_nil, hin]
  exact Sprintf_three guardIndex guardHead guardMid guardThen guardTail ns index _
    guardIndex_eq (by decide) (by decide) (by decide) (by decide)

/-- Guard at a concrete input: the namespace `tg`, the index `idx` and a query that names the
index first and the namespace second. -/
theorem GuardIndex_two_verbs_witness :
    GuardIndex "tg" "idx" "CREATE INDEX %s ON %s.users (id)" [] =
      some "DO $$\n\t\tBEGIN\n\t\tIF NOT EXISTS (\n\t\t\tSELECT 1 FROM pg_indexes WHERE schemaname = \x27tg\x27 AND indexname = \x27idx\x27\n\t\t) THEN\n\t\tCREATE INDEX idx ON tg.users (id);\n\t\tEND IF;\n\t\tEND$$;" ∧
    GuardIndex "tg" "idx" "CREATE INDEX %s ON %s.users (id)" [] =
      some (guardHead ++ "tg" ++ guardMid ++ "idx" ++ guardThen ++
        ("CREATE INDEX " ++ "idx" ++ " ON " ++ "tg" ++ ".users (id)") ++ guardTail) ∧
    Sprintf "CREATE INDEX %s ON %s.users (id)" ["idx", "tg"] =
      some ("CREATE INDEX " ++ "idx" ++ " ON " ++ "tg" ++ ".users (id)") :=
  ⟨by decide!,
    (GuardIndex_two_verbs "tg" "idx" "CREATE INDEX %s ON %s.users (id)" "CREATE INDEX "
      " ON " ".users (id)" (by decide) (by decide) (by decide) (by decide)).1,
    (GuardIndex_two_verbs "tg" "idx" "CREATE INDEX %s ON %s.users (id)" "CREATE INDEX "
      " ON " ".users (id)" (by decide) (by decide) (by decide) (by decide)).2.1⟩

end Pg
